import Mathlib

/-!
Shallow embedding of `ctools/worker/actor/env_manager/base_env_manager.py`
(class `BaseEnvManager`), a vectorized environment pool manager.

The environment actors managed by the pool are external collaborators; they
are modelled by a record of operations (`EnvOps`) over abstract types for
configurations, observations, actions, environment states, reset parameters,
exception values and attribute values.  Python exceptions raised by actor
calls are modelled with `Except`; Python's in-place mutation of `self` is
modelled by threading the `Manager` state through every operation, which
returns the (possibly mutated) state together with a normal result or a
raised error, exactly as a Python method leaves its mutations behind when an
exception propagates.
-/

namespace BaseEnvManager

/-- One step's result for a single slot: observation, reward, done flag and
auxiliary info.  The pool reads only `obs` and `done`
(`timestep[env_id].done`, `timestep[env_id].obs` in the source). -/
structure Timestep (Obs : Type) where
  obs : Obs
  reward : Int
  done : Bool
  info : String
  deriving DecidableEq, Repr

/-- The external environment-actor interface used by the pool:
`env_fn` (create), `reset`, `step`, `seed`, `close`, plus attribute
introspection used by `__getattr__`.  `create`, `reset` and `step` may raise
(`Except`); `seed` and `close` are taken total (no claim exercises a raise
from them, and the pool does not guard them with `_safe_run` anyway).
`attr e key = some (isMethod, v)` models `hasattr`/`getattr`/
`isinstance(·, MethodType)` on an actor. -/
structure EnvOps (Cfg Obs Act EnvS RP E V : Type) where
  create : Cfg → Except E EnvS
  reset : EnvS → RP → Except E (Obs × EnvS)
  step : EnvS → Act → Except E (Timestep Obs × EnvS)
  seed : EnvS → Int → EnvS
  close : EnvS → EnvS
  emptyParam : RP
  attr : EnvS → String → Option (Bool × V)

/-- Errors the pool itself can surface.  `stateError` models a failing
`assert` in `_check_closed` / `launch`, `invariantError` the failing
`assert len(self._envs) == self._env_num`, `indexError` an out-of-range
subscript (`self._env_cfg[0]`, `self._envs[env_id]`,
`self._reset_param[env_id]`), `attributeNotFound` the `AttributeError` and
`unsupportedCapability` the `RuntimeError` raised by `__getattr__`, and
`actorError` an exception propagated from an actor call. -/
inductive PoolErr (E : Type) where
  | stateError
  | invariantError
  | indexError
  | attributeNotFound
  | unsupportedCapability
  | actorError (e : E)
  deriving DecidableEq, Repr

/-- The state of a `BaseEnvManager` object.  Fields that a fresh Python
object does not yet have (`_env_ref`, `_reset_param`, `_env_seed`) are
`Option`s / empty lists; `__init__` leaves them absent. -/
structure Manager (Cfg Obs EnvS RP : Type) where
  env_num : Nat
  env_cfg : List Cfg
  /-- `_episode_num`; `none` models `float('inf')` (the `'inf'` sentinel is
  normalized in `__init__`), `some b` a finite budget. -/
  episode_num : Option Nat
  closed : Bool
  env_ref : Option EnvS := none
  env_episode_count : List Nat := []
  env_done : List Bool := []
  next_obs : List (Option Obs) := []
  envs : List EnvS := []
  reset_param : Option (List RP) := none
  env_seed : Option (List Int) := none
  deriving DecidableEq

variable {Cfg Obs Act EnvS RP E V : Type}

/-- `__init__(env_fn, env_cfg, env_num, episode_num)`: stores the
parameters and starts closed; no actor is created. -/
def initManager (env_cfg : List Cfg) (env_num : Nat) (episode_num : Option Nat) :
    Manager Cfg Obs EnvS RP :=
  { env_num := env_num, env_cfg := env_cfg, episode_num := episode_num, closed := true }

/-- `method_name_list` property. -/
def methodNameList : List String := ["reset", "step", "seed", "close"]

/-- `close()`: no-op if already closed; otherwise closes the reference actor
and every slot's actor, then sets `_closed = True`.  (A launched pool always
has `_env_ref` present; the `Option.map` covers the representation.) -/
def closePool (ops : EnvOps Cfg Obs Act EnvS RP E V) (m : Manager Cfg Obs EnvS RP) :
    Manager Cfg Obs EnvS RP :=
  if m.closed then m
  else { m with env_ref := m.env_ref.map ops.close,
                envs := m.envs.map ops.close,
                closed := true }

/-- `[self._env_fn(c) for c in self._env_cfg]`: build one actor per
configuration, left to right, aborting at the first exception. -/
def createAll (ops : EnvOps Cfg Obs Act EnvS RP E V) : List Cfg → Except E (List EnvS)
  | [] => .ok []
  | c :: cs =>
    match ops.create c with
    | .error e => .error e
    | .ok env =>
      match createAll ops cs with
      | .error e => .error e
      | .ok es => .ok (env :: es)

/-- `_create_state()`: sets `_closed = False` first, then builds the
reference actor from `env_cfg[0]`, reinitializes the per-slot dictionaries,
builds one actor per configuration, and asserts the built actor count.  An
exception from `env_fn` propagates, leaving the mutations made so far in
place (in particular `_closed = False`). -/
def createState (ops : EnvOps Cfg Obs Act EnvS RP E V) (m : Manager Cfg Obs EnvS RP) :
    Except (PoolErr E) Unit × Manager Cfg Obs EnvS RP :=
  let m1 : Manager Cfg Obs EnvS RP := { m with closed := false }
  match m1.env_cfg.head? with
  | none => (.error .indexError, m1)
  | some c0 =>
    match ops.create c0 with
    | .error e => (.error (.actorError e), m1)
    | .ok ref =>
      let m2 : Manager Cfg Obs EnvS RP :=
        { m1 with env_ref := some ref,
                  env_episode_count := List.replicate m1.env_num 0,
                  env_done := List.replicate m1.env_num false,
                  next_obs := List.replicate m1.env_num none }
      match createAll ops m2.env_cfg with
      | .error e => (.error (.actorError e), m2)
      | .ok es =>
        let m3 : Manager Cfg Obs EnvS RP := { m2 with envs := es }
        if es.length = m3.env_num then (.ok (), m3) else (.error .invariantError, m3)

/-- `_reset(env_id)`: `obs = self._safe_run(lambda: self._envs[env_id].reset(
**self._reset_param[env_id]))`; on success stores the observation in
`_next_obs[env_id]`.  Any exception inside the lambda (including an
out-of-range subscript) is caught by `_safe_run`, which closes the pool and
re-raises. -/
def resetSlot (ops : EnvOps Cfg Obs Act EnvS RP E V) (i : Nat) (m : Manager Cfg Obs EnvS RP) :
    Except (PoolErr E) Unit × Manager Cfg Obs EnvS RP :=
  match m.envs[i]? with
  | none => (.error .indexError, closePool ops m)
  | some env =>
    match (m.reset_param.getD [])[i]? with
    | none => (.error .indexError, closePool ops m)
    | some p =>
      match ops.reset env p with
      | .error e => (.error (.actorError e), closePool ops m)
      | .ok (obs, env') =>
        (.ok (), { m with envs := m.envs.set i env',
                          next_obs := m.next_obs.set i (some obs) })

/-- `for env, s in zip(self._envs, self._env_seed): env.seed(s)` —
`zip` truncates at the shorter list; envs beyond the seed list are left
untouched. -/
def applySeeds (ops : EnvOps Cfg Obs Act EnvS RP E V) :
    List EnvS → List Int → List EnvS
  | [], _ => []
  | es, [] => es
  | e :: es, s :: ss => ops.seed e s :: applySeeds ops es ss

/-- `for i in range(self.env_num): self._reset(i)`, iterated over an
explicit index list; stops at the first slot whose reset raises. -/
def runResets (ops : EnvOps Cfg Obs Act EnvS RP E V) :
    List Nat → Manager Cfg Obs EnvS RP →
    Except (PoolErr E) Unit × Manager Cfg Obs EnvS RP
  | [], m => (.ok (), m)
  | i :: rest, m =>
    match resetSlot ops i m with
    | (.error e, m') => (.error e, m')
    | (.ok _, m') => runResets ops rest m'

/-- `reset(reset_param)`: defaults the parameters to one empty dict per
slot, stores them in `_reset_param`, applies `_env_seed` (if it was ever
set) to the actors via `zip`, then resets every slot in index order.
There is no `_check_closed` in `reset`. -/
def reset (ops : EnvOps Cfg Obs Act EnvS RP E V) (rp : Option (List RP))
    (m : Manager Cfg Obs EnvS RP) :
    Except (PoolErr E) Unit × Manager Cfg Obs EnvS RP :=
  let rp' := rp.getD (List.replicate m.env_num ops.emptyParam)
  let m1 : Manager Cfg Obs EnvS RP := { m with reset_param := some rp' }
  let m2 : Manager Cfg Obs EnvS RP :=
    match m1.env_seed with
    | none => m1
    | some seeds => { m1 with envs := applySeeds ops m1.envs seeds }
  runResets ops (List.range m2.env_num) m2

/-- `launch(reset_param)`: `assert self._closed`, then `_create_state()`
followed by `reset(reset_param)`. -/
def launch (ops : EnvOps Cfg Obs Act EnvS RP E V) (rp : Option (List RP))
    (m : Manager Cfg Obs EnvS RP) :
    Except (PoolErr E) Unit × Manager Cfg Obs EnvS RP :=
  if m.closed then
    match createState ops m with
    | (.error e, m') => (.error e, m')
    | (.ok _, m') => reset ops rp m'
  else (.error .stateError, m)

/-- One iteration of `step`'s loop, for the pair `(env_id, act)`: step the
actor under `_safe_run`; on `done`, increment `_env_episode_count[env_id]`
and either mark the slot done (the new count equals `_episode_num`) or
auto-reset it with the stored `_reset_param[env_id]`; otherwise store the
step observation in `_next_obs[env_id]`. -/
def stepOne (ops : EnvOps Cfg Obs Act EnvS RP E V) (i : Nat) (a : Act)
    (m : Manager Cfg Obs EnvS RP) :
    Except (PoolErr E) (Timestep Obs) × Manager Cfg Obs EnvS RP :=
  match m.envs[i]? with
  | none => (.error .indexError, closePool ops m)
  | some env =>
    match ops.step env a with
    | .error e => (.error (.actorError e), closePool ops m)
    | .ok (t, env') =>
      let mA : Manager Cfg Obs EnvS RP := { m with envs := m.envs.set i env' }
      if t.done then
        let c := (mA.env_episode_count[i]?.getD 0) + 1
        let mB : Manager Cfg Obs EnvS RP :=
          { mA with env_episode_count := mA.env_episode_count.set i c }
        if some c = mB.episode_num then
          (.ok t, { mB with env_done := mB.env_done.set i true })
        else
          match resetSlot ops i mB with
          | (.ok _, m') => (.ok t, m')
          | (.error e, m') => (.error e, m')
      else (.ok t, { mA with next_obs := mA.next_obs.set i (some t.obs) })

/-- The body of `step`: iterate `stepOne` over the `(env_id, act)` pairs in
the mapping's iteration order, collecting the timesteps keyed by slot index
in insertion order; an exception aborts the loop (the partial timestep dict
is discarded as the exception propagates). -/
def stepLoop (ops : EnvOps Cfg Obs Act EnvS RP E V) :
    List (Nat × Act) → Manager Cfg Obs EnvS RP →
    Except (PoolErr E) (List (Nat × Timestep Obs)) × Manager Cfg Obs EnvS RP
  | [], m => (.ok [], m)
  | (i, a) :: rest, m =>
    match stepOne ops i a m with
    | (.error e, m') => (.error e, m')
    | (.ok t, m') =>
      match stepLoop ops rest m' with
      | (.ok ts, m'') => (.ok ((i, t) :: ts), m'')
      | (.error e, m'') => (.error e, m'')

/-- `step(action)`: `_check_closed()` first (raises on a closed pool without
touching any slot), then the per-pair loop. -/
def step (ops : EnvOps Cfg Obs Act EnvS RP E V) (action : List (Nat × Act))
    (m : Manager Cfg Obs EnvS RP) :
    Except (PoolErr E) (List (Nat × Timestep Obs)) × Manager Cfg Obs EnvS RP :=
  if m.closed then (.error .stateError, m) else stepLoop ops action m

/-- `seed(seed)`: stores the per-slot seed list in `_env_seed`. -/
def seedPool (seeds : List Int) (m : Manager Cfg Obs EnvS RP) :
    Manager Cfg Obs EnvS RP :=
  { m with env_seed := some seeds }

/-- `next_obs` property: `{i: self._next_obs[i] for i, d in
self._env_done.items() if not d}` — one entry per non-done slot, in index
order. -/
def nextObs (m : Manager Cfg Obs EnvS RP) : List (Nat × Option Obs) :=
  m.env_done.enum.filterMap fun p =>
    if p.2 then none else some (p.1, m.next_obs[p.1]?.getD none)

/-- `done` property: `all(self._env_done.values())`. -/
def poolDone (m : Manager Cfg Obs EnvS RP) : Bool :=
  m.env_done.all id

/-- `__getattr__(key)`: `AttributeError` if the reference actor lacks the
attribute; `RuntimeError` if it is a bound method whose name is not in
`method_name_list`; otherwise `_check_closed()` and return
`[getattr(env, key) if hasattr(env, key) else None for env in self._envs]`.
The caller supplies the reference actor's state (`m.env_ref = some ref` on
any launched pool). -/
def getattrPool (ops : EnvOps Cfg Obs Act EnvS RP E V) (ref : EnvS) (key : String)
    (m : Manager Cfg Obs EnvS RP) :
    Except (PoolErr E) (List (Option V)) × Manager Cfg Obs EnvS RP :=
  match ops.attr ref key with
  | none => (.error .attributeNotFound, m)
  | some (isMeth, _) =>
    if isMeth ∧ key ∉ methodNameList then (.error .unsupportedCapability, m)
    else if m.closed then (.error .stateError, m)
    else (.ok (m.envs.map fun e => (ops.attr e key).map Prod.snd), m)

/-! ## Slot accessors and well-formedness -/

/-- `_env_episode_count[i]` of a well-formed pool. -/
def slotCount (m : Manager Cfg Obs EnvS RP) (i : Nat) : Nat :=
  m.env_episode_count[i]?.getD 0

/-- `_env_done[i]` of a well-formed pool. -/
def slotDone (m : Manager Cfg Obs EnvS RP) (i : Nat) : Bool :=
  m.env_done[i]?.getD true

/-- `_next_obs[i]` of a well-formed pool. -/
def slotObs (m : Manager Cfg Obs EnvS RP) (i : Nat) : Option Obs :=
  m.next_obs[i]?.getD none

/-- `_envs[env_id]` lookup. -/
def slotEnv (m : Manager Cfg Obs EnvS RP) (i : Nat) : Option EnvS :=
  m.envs[i]?

/-- The per-slot containers all have `env_num` entries, as `_create_state`
establishes (dict comprehensions over `range(env_num)` plus the asserted
`len(self._envs) == self._env_num`). -/
structure WF (m : Manager Cfg Obs EnvS RP) : Prop where
  counts_len : m.env_episode_count.length = m.env_num
  done_len : m.env_done.length = m.env_num
  obs_len : m.next_obs.length = m.env_num
  envs_len : m.envs.length = m.env_num

/-! ## Basic lemmas -/

/-! ## Specification predicates and concrete instances -/

/-- Fields of the manager that a successful reset loop leaves unchanged. -/
def ResetsFrame (m m' : Manager Cfg Obs EnvS RP) : Prop :=
  m'.env_num = m.env_num ∧ m'.env_episode_count = m.env_episode_count ∧
  m'.env_done = m.env_done ∧ m'.closed = m.closed ∧ m'.episode_num = m.episode_num ∧
  m'.reset_param = m.reset_param ∧ m'.env_seed = m.env_seed ∧ m'.env_cfg = m.env_cfg ∧
  m'.env_ref = m.env_ref ∧ m'.envs.length = m.envs.length ∧
  m'.next_obs.length = m.next_obs.length

/-- Slot `i` of `m'` holds the result of resetting slot `i` of `m` with its
stored reset parameters: the actor's reset was invoked once and its
observation stored in `_next_obs[i]`. -/
def SlotReset (ops : EnvOps Cfg Obs Act EnvS RP E V) (m m' : Manager Cfg Obs EnvS RP)
    (i : Nat) : Prop :=
  ∃ env p o env', m.envs[i]? = some env ∧ (m.reset_param.getD [])[i]? = some p ∧
    ops.reset env p = .ok (o, env') ∧ m'.envs[i]? = some env' ∧
    m'.next_obs[i]? = some (some o)

/-- The envs list after `reset`'s seed-application phase. -/
def seedAdjEnvs (ops : EnvOps Cfg Obs Act EnvS RP E V) (m : Manager Cfg Obs EnvS RP) :
    List EnvS :=
  match m.env_seed with
  | none => m.envs
  | some ss => applySeeds ops m.envs ss

/-- The effective per-slot reset parameters: the caller's list, or one empty
dict per slot. -/
def effParams (ops : EnvOps Cfg Obs Act EnvS RP E V) (rp : Option (List RP))
    (m : Manager Cfg Obs EnvS RP) : List RP :=
  rp.getD (List.replicate m.env_num ops.emptyParam)

/-- Fields of the manager untouched by the step loop. -/
def LifecycleFrame (m m' : Manager Cfg Obs EnvS RP) : Prop :=
  m'.env_num = m.env_num ∧ m'.episode_num = m.episode_num ∧ m'.closed = m.closed ∧
  m'.reset_param = m.reset_param ∧ m'.env_seed = m.env_seed ∧
  m'.env_ref = m.env_ref ∧ m'.env_cfg = m.env_cfg

/-- Exact effect of one `step` loop iteration on the targeted slot `i`,
read off from the source: the actor is stepped once; if the timestep
reports `done`, the episode count rises by exactly one and either the slot
is marked pool-done (new count equals the budget; the actor is kept, the
last observation is untouched) or the slot alone is auto-reset with its
stored reset parameters and the reset observation replaces the last
observation; if not `done`, the count and done flag are untouched and the
step observation replaces the last observation. -/
def StepSlotSpec (ops : EnvOps Cfg Obs Act EnvS RP E V) (budget : Option Nat)
    (rps : List RP) (m m' : Manager Cfg Obs EnvS RP) (i : Nat) (a : Act)
    (t : Timestep Obs) : Prop :=
  ∃ env env₁, m.envs[i]? = some env ∧ ops.step env a = .ok (t, env₁) ∧
    (t.done = true →
      slotCount m' i = slotCount m i + 1 ∧
      (budget = some (slotCount m i + 1) →
        slotDone m' i = true ∧ slotEnv m' i = some env₁ ∧ slotObs m' i = slotObs m i) ∧
      (budget ≠ some (slotCount m i + 1) →
        slotDone m' i = slotDone m i ∧
        ∃ p o env₂, rps[i]? = some p ∧ ops.reset env₁ p = .ok (o, env₂) ∧
          slotEnv m' i = some env₂ ∧ slotObs m' i = some o)) ∧
    (t.done = false →
      slotCount m' i = slotCount m i ∧ slotDone m' i = slotDone m i ∧
      slotObs m' i = some t.obs ∧ slotEnv m' i = some env₁)

/-- Invariant tied to a finite budget `B`: counts never exceed `B`, and a
slot is pool-done exactly when its count has reached `B`. -/
def CountInv (B : Nat) (m : Manager Cfg Obs EnvS RP) : Prop :=
  ∀ i, i < m.env_num → slotCount m i ≤ B ∧ (slotDone m i = true ↔ slotCount m i = B)

/-- A sequence of `step` calls (`runSteps`), each aborting the run on
error — successive calls see the state left by the previous one. -/
def runSteps (ops : EnvOps Cfg Obs Act EnvS RP E V) :
    List (List (Nat × Act)) → Manager Cfg Obs EnvS RP →
    Except (PoolErr E) Unit × Manager Cfg Obs EnvS RP
  | [], m => (.ok (), m)
  | acts :: rest, m =>
    match step ops acts m with
    | (.ok _, m') => runSteps ops rest m'
    | (.error e, m') => (.error e, m')

/-- The call sequence is valid: each call lists distinct slot indices, all
non-pool-done at the time of that call, and each call succeeds. -/
def ValidCalls (ops : EnvOps Cfg Obs Act EnvS RP E V) :
    List (List (Nat × Act)) → Manager Cfg Obs EnvS RP → Prop
  | [], _ => True
  | acts :: rest, m =>
    (acts.map Prod.fst).Nodup ∧ (∀ p ∈ acts, slotDone m p.1 = false) ∧
    (match step ops acts m with
     | (.ok _, m') => ValidCalls ops rest m'
     | (.error _, _) => False)

deriving instance DecidableEq for Except

/-- A test double actor recording the seeds it received and counting its
resets, steps and closes. -/
structure TestEnv where
  seedLog : List Int := []
  resetCount : Nat := 0
  stepCount : Nat := 0
  closeCount : Nat := 0
  deriving DecidableEq, Repr

/-- Concrete instantiation: configurations and observations are `Nat`s, the
action is the `done` flag the scripted step reports, reset returns a
distinctive observation `100 + resetCount`. -/
def testOps : EnvOps Nat Nat Bool TestEnv Unit Unit Nat where
  create _ := .ok {}
  reset e _ := .ok (100 + e.resetCount, { e with resetCount := e.resetCount + 1 })
  step e a := .ok ({ obs := e.stepCount, reward := 0, done := a, info := "" },
                   { e with stepCount := e.stepCount + 1 })
  seed e s := { e with seedLog := e.seedLog ++ [s] }
  close e := { e with closeCount := e.closeCount + 1 }
  emptyParam := ()
  attr _ key :=
    if key = "observation_space" then some (false, 7)
    else if key = "render" then some (true, 0) else none

/-- A variant whose factory raises. -/
def failCreateOps : EnvOps Nat Nat Bool TestEnv Unit Unit Nat :=
  { testOps with create := fun _ => .error () }

/-- A variant whose `step` raises. -/
def failStepOps : EnvOps Nat Nat Bool TestEnv Unit Unit Nat :=
  { testOps with step := fun _ _ => .error () }

/-- A variant whose `reset` raises. -/
def failResetOps : EnvOps Nat Nat Bool TestEnv Unit Unit Nat :=
  { testOps with reset := fun _ _ => .error () }

/-- A 2-slot pool with budget 2, freshly constructed. -/
def mInit2 : Manager Nat Nat TestEnv Unit := initManager [5, 6] 2 (some 2)

/-- The same pool after `launch`. -/
def mPool : Manager Nat Nat TestEnv Unit := (launch testOps none mInit2).2

/-- A 1-slot pool with budget 1, freshly constructed. -/
def mInit1 : Manager Nat Nat TestEnv Unit := initManager [0] 1 (some 1)

/-- The launched 2-slot pool after `close`. -/
def mClosedPool : Manager Nat Nat TestEnv Unit := closePool testOps mPool

/-- A launched 1-slot pool with budget 5. -/
def mSeedPool : Manager Nat Nat TestEnv Unit :=
  (launch testOps none (initManager [0] 1 (some 5))).2

/-! ## Lemmas and theorems -/

theorem closePool_closed (ops : EnvOps Cfg Obs Act EnvS RP E V)
    (m : Manager Cfg Obs EnvS RP) : (closePool ops m).closed = true := by
  unfold closePool
  split <;> simp_all

theorem closePool_frame (ops : EnvOps Cfg Obs Act EnvS RP E V)
    (m : Manager Cfg Obs EnvS RP) :
    (closePool ops m).env_num = m.env_num ∧
    (closePool ops m).env_episode_count = m.env_episode_count ∧
    (closePool ops m).env_done = m.env_done ∧
    (closePool ops m).next_obs = m.next_obs ∧
    (closePool ops m).episode_num = m.episode_num ∧
    (closePool ops m).reset_param = m.reset_param ∧
    (closePool ops m).env_seed = m.env_seed ∧
    (closePool ops m).env_cfg = m.env_cfg := by
  unfold closePool
  split <;> simp

/-- On success, `_reset(i)` touches only slot `i`'s actor and observation. -/
theorem resetSlot_ok (ops : EnvOps Cfg Obs Act EnvS RP E V) (i : Nat)
    (m m' : Manager Cfg Obs EnvS RP)
    (h : resetSlot ops i m = (.ok (), m')) :
    ∃ env p o env', m.envs[i]? = some env ∧ (m.reset_param.getD [])[i]? = some p ∧
      ops.reset env p = .ok (o, env') ∧
      m' = { m with envs := m.envs.set i env', next_obs := m.next_obs.set i (some o) } := by
  unfold resetSlot at h
  cases henv : m.envs[i]? with
  | none => simp [henv] at h
  | some env =>
    cases hp : (m.reset_param.getD [])[i]? with
    | none => simp [henv, hp] at h
    | some p =>
      cases hr : ops.reset env p with
      | error e => simp [henv, hp, hr] at h
      | ok oe =>
        obtain ⟨o, env'⟩ := oe
        simp only [henv, hp, hr] at h
        exact ⟨env, p, o, env', rfl, rfl, hr, (Prod.mk.injEq _ _ _ _).mp h |>.2.symm⟩

/-- Any error exit of `_reset(i)` goes through `_safe_run`'s `close()`. -/
theorem resetSlot_error (ops : EnvOps Cfg Obs Act EnvS RP E V) (i : Nat)
    (m m' : Manager Cfg Obs EnvS RP) (e : PoolErr E)
    (h : resetSlot ops i m = (.error e, m')) :
    m' = closePool ops m ∧ (e = .indexError ∨ ∃ x, e = .actorError x) := by
  unfold resetSlot at h
  cases henv : m.envs[i]? with
  | none =>
    simp only [henv] at h
    exact ⟨((Prod.mk.injEq _ _ _ _).mp h).2.symm, .inl (by
      have := ((Prod.mk.injEq _ _ _ _).mp h).1
      cases this; rfl)⟩
  | some env =>
    cases hp : (m.reset_param.getD [])[i]? with
    | none =>
      simp only [henv, hp] at h
      exact ⟨((Prod.mk.injEq _ _ _ _).mp h).2.symm, .inl (by
        have := ((Prod.mk.injEq _ _ _ _).mp h).1
        cases this; rfl)⟩
    | some p =>
      cases hr : ops.reset env p with
      | error x =>
        simp only [henv, hp, hr] at h
        refine ⟨((Prod.mk.injEq _ _ _ _).mp h).2.symm, .inr ⟨x, ?_⟩⟩
        have := ((Prod.mk.injEq _ _ _ _).mp h).1
        cases this; rfl
      | ok oe => simp [henv, hp, hr] at h


/-- A successful `for i in …: self._reset(i)` loop over distinct indices
resets exactly the listed slots (each once) and leaves everything else —
episode counts, done flags, untouched slots, lifecycle fields — unchanged. -/
theorem runResets_spec (ops : EnvOps Cfg Obs Act EnvS RP E V) :
    ∀ (idxs : List Nat) (m m' : Manager Cfg Obs EnvS RP),
    runResets ops idxs m = (.ok (), m') → idxs.Nodup →
    m.next_obs.length = m.envs.length →
    (∀ i ∈ idxs, SlotReset ops m m' i) ∧
    (∀ j, j ∉ idxs → m'.envs[j]? = m.envs[j]? ∧ m'.next_obs[j]? = m.next_obs[j]?) ∧
    ResetsFrame m m' := by
  intro idxs
  induction idxs with
  | nil =>
    intro m m' h _ _
    simp only [runResets] at h
    obtain ⟨-, rfl⟩ := (Prod.mk.injEq _ _ _ _).mp h
    refine ⟨by simp, fun j _ => ⟨rfl, rfl⟩, rfl, rfl, rfl, rfl, rfl, rfl, rfl, rfl, rfl, rfl, rfl⟩
  | cons i rest ih =>
    intro m m' h hnd hlen
    simp only [runResets] at h
    obtain ⟨hnotmem, hndrest⟩ := List.nodup_cons.mp hnd
    cases hrs : resetSlot ops i m with
    | mk r m₁ =>
      rw [hrs] at h
      cases r with
      | error e => simp at h
      | ok u =>
        obtain ⟨env, p, o, env', henv, hp, hr, hm₁⟩ := resetSlot_ok ops i m m₁ hrs
        have hilt : i < m.envs.length := by
          have := List.getElem?_eq_some.mp henv
          exact this.1
        have hilt' : i < m.next_obs.length := hlen ▸ hilt
        have hlen₁ : m₁.next_obs.length = m₁.envs.length := by
          rw [hm₁]; simpa using hlen
        obtain ⟨hslots, huntouched, hframe⟩ := ih m₁ m' h hndrest hlen₁
        have henvs₁ : ∀ j, j ≠ i → m₁.envs[j]? = m.envs[j]? := by
          intro j hj
          rw [hm₁]
          exact List.getElem?_set_ne (fun hij => hj hij.symm)
        have hobs₁ : ∀ j, j ≠ i → m₁.next_obs[j]? = m.next_obs[j]? := by
          intro j hj
          rw [hm₁]
          exact List.getElem?_set_ne (fun hij => hj hij.symm)
        have hrp₁ : m₁.reset_param = m.reset_param := by rw [hm₁]
        refine ⟨?_, ?_, ?_⟩
        · intro j hj
          rcases List.mem_cons.mp hj with rfl | hjrest
          · -- the head slot: resetSlot wrote it and the rest did not touch it
            have hi' : m'.envs[j]? = m₁.envs[j]? := (huntouched j hnotmem).1
            have ho' : m'.next_obs[j]? = m₁.next_obs[j]? := (huntouched j hnotmem).2
            refine ⟨env, p, o, env', henv, hp, hr, ?_, ?_⟩
            · rw [hi', hm₁]
              exact List.getElem?_set_eq_of_lt env' hilt
            · rw [ho', hm₁]
              exact List.getElem?_set_eq_of_lt (some o) hilt'
          · have hji : j ≠ i := fun hji => hnotmem (hji ▸ hjrest)
            obtain ⟨e₂, p₂, o₂, e₂', h1, h2, h3, h4, h5⟩ := hslots j hjrest
            exact ⟨e₂, p₂, o₂, e₂', (henvs₁ j hji) ▸ h1, hrp₁ ▸ h2, h3, h4, h5⟩
        · intro j hj
          have hji : j ≠ i := fun hji => hj (hji ▸ List.mem_cons_self i rest)
          have hjrest : j ∉ rest := fun hjr => hj (List.mem_cons_of_mem i hjr)
          exact ⟨(huntouched j hjrest).1.trans (henvs₁ j hji),
                 (huntouched j hjrest).2.trans (hobs₁ j hji)⟩
        · obtain ⟨f1, f2, f3, f4, f5, f6, f7, f8, f9, f10, f11⟩ := hframe
          subst hm₁
          simp only at f1 f2 f3 f4 f5 f6 f7 f8 f9 f10 f11 ⊢
          refine ⟨f1, f2, f3, f4, f5, f6, f7, f8, f9, ?_, ?_⟩
          · rw [f10]; simp
          · rw [f11]; simp

/-- Any error exit of the reset loop is a `_safe_run` exit: the final state
is `close()` of the state at the failing slot (same `closed` flag as the
entry state, since the loop itself never toggles it), and the error is an
actor exception or a subscript error — never the closed-pool assertion. -/
theorem runResets_error (ops : EnvOps Cfg Obs Act EnvS RP E V) :
    ∀ (idxs : List Nat) (m m' : Manager Cfg Obs EnvS RP) (e : PoolErr E),
    runResets ops idxs m = (.error e, m') →
    ∃ mf : Manager Cfg Obs EnvS RP, mf.closed = m.closed ∧ m' = closePool ops mf ∧
      (e = .indexError ∨ ∃ x, e = .actorError x) := by
  intro idxs
  induction idxs with
  | nil =>
    intro m m' e h
    simp [runResets] at h
  | cons i rest ih =>
    intro m m' e h
    simp only [runResets] at h
    cases hrs : resetSlot ops i m with
    | mk r m₁ =>
      rw [hrs] at h
      cases r with
      | error e₀ =>
        obtain ⟨he, rfl⟩ := (Prod.mk.injEq _ _ _ _).mp h
        obtain ⟨rfl, hkind⟩ := resetSlot_error ops i m m₁ e₀ hrs
        cases he
        exact ⟨m, rfl, rfl, hkind⟩
      | ok u =>
        obtain ⟨env, p, o, env', -, -, -, hm₁⟩ := resetSlot_ok ops i m m₁ hrs
        obtain ⟨mf, hcl, rfl, hkind⟩ := ih m₁ m' e h
        exact ⟨mf, by rw [hcl, hm₁], rfl, hkind⟩

/-- If every actor reset succeeds and all indices are in range, the reset
loop succeeds. -/
theorem runResets_ok_exists (ops : EnvOps Cfg Obs Act EnvS RP E V)
    (hres : ∀ e p, ∃ o e', ops.reset e p = .ok (o, e')) :
    ∀ (idxs : List Nat) (m : Manager Cfg Obs EnvS RP),
    (∀ i ∈ idxs, i < m.envs.length ∧ i < (m.reset_param.getD []).length) →
    ∃ m', runResets ops idxs m = (.ok (), m') := by
  intro idxs
  induction idxs with
  | nil => intro m _; exact ⟨m, rfl⟩
  | cons i rest ih =>
    intro m hrange
    obtain ⟨hie, hip⟩ := hrange i (List.mem_cons_self i rest)
    have henv' : m.envs[i]? = some m.envs[i] := List.getElem?_eq_some.mpr ⟨hie, rfl⟩
    have hp : (m.reset_param.getD [])[i]? = some (m.reset_param.getD [])[i] :=
      List.getElem?_eq_some.mpr ⟨hip, rfl⟩
    obtain ⟨o, env', hr⟩ := hres m.envs[i] (m.reset_param.getD [])[i]
    have hrs : resetSlot ops i m = (.ok (),
        { m with envs := m.envs.set i env', next_obs := m.next_obs.set i (some o) }) := by
      unfold resetSlot
      rw [henv', hp]
      simp only [hr]
    obtain ⟨m', hm'⟩ := ih { m with envs := m.envs.set i env',
                                    next_obs := m.next_obs.set i (some o) }
      (by intro j hj
          obtain ⟨h1, h2⟩ := hrange j (List.mem_cons_of_mem i hj)
          constructor
          · simpa using h1
          · simpa using h2)
    exact ⟨m', by simp only [runResets]; rw [hrs]; exact hm'⟩

theorem applySeeds_length (ops : EnvOps Cfg Obs Act EnvS RP E V) :
    ∀ (es : List EnvS) (ss : List Int), (applySeeds ops es ss).length = es.length := by
  intro es
  induction es with
  | nil => intro ss; cases ss <;> rfl
  | cons e es ih =>
    intro ss
    cases ss with
    | nil => rfl
    | cons s ss => simp [applySeeds, ih]

/-- Within the seed list, `zip` pairs slot `i` with `seeds[i]` and seeds it. -/
theorem applySeeds_getElem_lt (ops : EnvOps Cfg Obs Act EnvS RP E V) :
    ∀ (es : List EnvS) (ss : List Int) (i : Nat) (s : Int), ss[i]? = some s →
    (applySeeds ops es ss)[i]? = (es[i]?).map (fun e => ops.seed e s) := by
  intro es
  induction es with
  | nil =>
    intro ss i s _
    cases ss <;> simp [applySeeds]
  | cons e es ih =>
    intro ss i s hs
    cases ss with
    | nil => simp at hs
    | cons s₀ ss =>
      cases i with
      | zero =>
        simp at hs
        subst hs
        simp [applySeeds]
      | succ i =>
        simp only [List.getElem?_cons_succ] at hs
        simp only [applySeeds, List.getElem?_cons_succ]
        exact ih ss i s hs

/-- Beyond the seed list, `zip` truncates: the slot's actor is untouched. -/
theorem applySeeds_getElem_ge (ops : EnvOps Cfg Obs Act EnvS RP E V) :
    ∀ (es : List EnvS) (ss : List Int) (i : Nat), ss.length ≤ i →
    (applySeeds ops es ss)[i]? = es[i]? := by
  intro es
  induction es with
  | nil => intro ss i _; cases ss <;> rfl
  | cons e es ih =>
    intro ss i hge
    cases ss with
    | nil => rfl
    | cons s₀ ss =>
      cases i with
      | zero => simp at hge
      | succ i =>
        simp only [applySeeds, List.getElem?_cons_succ]
        exact ih ss i (by simpa using hge)


/-- `reset` is exactly: store the effective parameters, apply the stored
seeds, then run the reset loop over `range(env_num)`. -/
theorem reset_eq (ops : EnvOps Cfg Obs Act EnvS RP E V) (rp : Option (List RP))
    (m : Manager Cfg Obs EnvS RP) :
    reset ops rp m = runResets ops (List.range m.env_num)
      { m with reset_param := some (effParams ops rp m), envs := seedAdjEnvs ops m } := by
  unfold reset effParams seedAdjEnvs
  cases m.env_seed <;> rfl

theorem seedAdjEnvs_length (ops : EnvOps Cfg Obs Act EnvS RP E V)
    (m : Manager Cfg Obs EnvS RP) : (seedAdjEnvs ops m).length = m.envs.length := by
  unfold seedAdjEnvs
  cases m.env_seed <;> simp [applySeeds_length]

/-- Full characterization of a successful `reset` call: every slot `0..N-1`
has its (seed-adjusted) actor reset with the effective parameters and the
resulting observation stored; episode counts, done flags and the lifecycle
fields are untouched; the seed list is left in place. -/
theorem reset_ok (ops : EnvOps Cfg Obs Act EnvS RP E V) (rp : Option (List RP))
    (m m' : Manager Cfg Obs EnvS RP)
    (h : reset ops rp m = (.ok (), m'))
    (hlen : m.next_obs.length = m.envs.length) :
    (∀ i, i < m.env_num →
      ∃ env p o env', (seedAdjEnvs ops m)[i]? = some env ∧
        (effParams ops rp m)[i]? = some p ∧
        ops.reset env p = .ok (o, env') ∧ m'.envs[i]? = some env' ∧
        m'.next_obs[i]? = some (some o)) ∧
    m'.env_episode_count = m.env_episode_count ∧ m'.env_done = m.env_done ∧
    m'.env_num = m.env_num ∧ m'.closed = m.closed ∧ m'.episode_num = m.episode_num ∧
    m'.reset_param = some (effParams ops rp m) ∧ m'.env_seed = m.env_seed ∧
    m'.env_ref = m.env_ref ∧ m'.env_cfg = m.env_cfg ∧
    m'.envs.length = m.envs.length ∧ m'.next_obs.length = m.next_obs.length := by
  rw [reset_eq] at h
  have hlen₂ : m.next_obs.length = (seedAdjEnvs ops m).length := by
    rw [seedAdjEnvs_length]; exact hlen
  obtain ⟨hslots, -, hframe⟩ :=
    runResets_spec ops (List.range m.env_num)
      { m with reset_param := some (effParams ops rp m), envs := seedAdjEnvs ops m } m' h
      (List.nodup_range _) hlen₂
  obtain ⟨f1, f2, f3, f4, f5, f6, f7, f8, f9, f10, f11⟩ := hframe
  refine ⟨?_, f2, f3, f1, f4, f5, f6, f7, f9, f8, ?_, ?_⟩
  · intro i hi
    obtain ⟨env, p, o, env', h1, h2, h3, h4, h5⟩ :=
      hslots i (List.mem_range.mpr hi)
    exact ⟨env, p, o, env', h1, h2, h3, h4, h5⟩
  · rw [f10]; simp [seedAdjEnvs_length]
  · exact f11

/-- Any error exit of `reset` closed the pool via `_safe_run` and is an
actor or subscript error — `reset` performs no closed-pool check, so it can
never fail with the lifecycle assertion. -/
theorem reset_error (ops : EnvOps Cfg Obs Act EnvS RP E V) (rp : Option (List RP))
    (m m' : Manager Cfg Obs EnvS RP) (e : PoolErr E)
    (h : reset ops rp m = (.error e, m')) :
    ∃ mf : Manager Cfg Obs EnvS RP, mf.closed = m.closed ∧ m' = closePool ops mf ∧
      (e = .indexError ∨ ∃ x, e = .actorError x) := by
  rw [reset_eq] at h
  obtain ⟨mf, hcl, rfl, hkind⟩ := runResets_error ops _ _ m' e h
  exact ⟨mf, hcl, rfl, hkind⟩

theorem createAll_length (ops : EnvOps Cfg Obs Act EnvS RP E V) :
    ∀ (cs : List Cfg) (es : List EnvS), createAll ops cs = .ok es → es.length = cs.length := by
  intro cs
  induction cs with
  | nil =>
    intro es h
    simp only [createAll] at h
    cases h; rfl
  | cons c cs ih =>
    intro es h
    simp only [createAll] at h
    cases hc : ops.create c with
    | error e => rw [hc] at h; cases h
    | ok env =>
      rw [hc] at h
      cases hcs : createAll ops cs with
      | error e => rw [hcs] at h; cases h
      | ok es' =>
        rw [hcs] at h
        cases h
        simp [ih es' hcs]

/-- What a successful `_create_state()` establishes. -/
theorem createState_ok (ops : EnvOps Cfg Obs Act EnvS RP E V)
    (m m' : Manager Cfg Obs EnvS RP) (h : createState ops m = (.ok (), m')) :
    m'.closed = false ∧ m'.env_num = m.env_num ∧ m'.episode_num = m.episode_num ∧
    m'.env_cfg = m.env_cfg ∧
    m'.env_episode_count = List.replicate m.env_num 0 ∧
    m'.env_done = List.replicate m.env_num false ∧
    m'.next_obs = List.replicate m.env_num (none : Option Obs) ∧
    m'.envs.length = m.env_num ∧
    m'.reset_param = m.reset_param ∧ m'.env_seed = m.env_seed ∧
    (∃ ref, m'.env_ref = some ref) ∧ 0 < m.env_num := by
  unfold createState at h
  dsimp only at h
  cases hc0 : m.env_cfg.head? with
  | none => rw [hc0] at h; simp at h
  | some c0 =>
    rw [hc0] at h
    dsimp only at h
    cases hcr : ops.create c0 with
    | error e => rw [hcr] at h; simp at h
    | ok ref =>
      rw [hcr] at h
      dsimp only at h
      cases hca : createAll ops m.env_cfg with
      | error e => rw [hca] at h; simp at h
      | ok es =>
        rw [hca] at h
        dsimp only at h
        by_cases hl : es.length = m.env_num
        · rw [if_pos hl] at h
          obtain ⟨-, rfl⟩ := (Prod.mk.injEq _ _ _ _).mp h
          have hcfg : 0 < m.env_cfg.length := by
            cases hcfg' : m.env_cfg with
            | nil => rw [hcfg'] at hc0; cases hc0
            | cons a l => simp [hcfg']
          have hnum : 0 < m.env_num := by
            rw [← hl, createAll_length ops m.env_cfg es hca]; exact hcfg
          exact ⟨rfl, rfl, rfl, rfl, rfl, rfl, rfl, hl, rfl, rfl, ⟨ref, rfl⟩, hnum⟩
        · rw [if_neg hl] at h
          simp at h

/-- `launch` succeeds exactly by running `_create_state` then `reset`, and
only from the closed state. -/
theorem launch_ok (ops : EnvOps Cfg Obs Act EnvS RP E V) (rp : Option (List RP))
    (m m' : Manager Cfg Obs EnvS RP) (h : launch ops rp m = (.ok (), m')) :
    m.closed = true ∧
    ∃ m₁, createState ops m = (.ok (), m₁) ∧ reset ops rp m₁ = (.ok (), m') := by
  unfold launch at h
  cases hcl : m.closed with
  | true =>
    rw [hcl] at h
    simp only [if_pos] at h
    cases hcs : createState ops m with
    | mk r m₁ =>
      rw [hcs] at h
      cases r with
      | error e => simp at h
      | ok u =>
        cases u
        dsimp only at h
        exact ⟨rfl, m₁, rfl, h⟩
  | false =>
    rw [hcl] at h
    simp at h

theorem filterMapNotDone_eq_map {α : Type _} (f : Nat → α) :
    ∀ (l : List (Nat × Bool)), (∀ p ∈ l, p.2 = false) →
    (l.filterMap fun p => if p.2 then none else some (p.1, f p.1)) =
      l.map (fun p => (p.1, f p.1)) := by
  intro l
  induction l with
  | nil => intro _; rfl
  | cons p l ih =>
    intro h
    have hp : p.2 = false := h p (List.mem_cons_self p l)
    simp only [List.filterMap_cons, List.map_cons, hp, Bool.false_eq_true, if_false]
    rw [ih (fun q hq => h q (List.mem_cons_of_mem p hq))]

/-- When no slot is done, the `next_obs` query is defined on every slot
index `0..N-1`, in order. -/
theorem nextObs_of_no_done (m : Manager Cfg Obs EnvS RP)
    (h : ∀ b ∈ m.env_done, b = false) :
    nextObs m = (List.range m.env_done.length).map
      (fun i => (i, m.next_obs[i]?.getD none)) := by
  unfold nextObs
  rw [filterMapNotDone_eq_map (fun i => m.next_obs[i]?.getD none) m.env_done.enum
      (fun p hp => h p.2 (List.snd_mem_of_mem_enum hp))]
  have : (fun p : Nat × Bool => (p.1, m.next_obs[p.1]?.getD none)) =
      (fun i : Nat => (i, m.next_obs[i]?.getD none)) ∘ Prod.fst := rfl
  rw [this, ← List.map_map, List.enum_map_fst]

theorem poolDone_replicate_false (m : Manager Cfg Obs EnvS RP) (n : Nat)
    (hn : 0 < n) (h : m.env_done = List.replicate n false) :
    poolDone m = false := by
  unfold poolDone
  rw [h]
  cases n with
  | zero => exact absurd hn (by simp)
  | succ k => simp [List.replicate_succ]


theorem LifecycleFrame.trans {m₁ m₂ m₃ : Manager Cfg Obs EnvS RP}
    (h₁ : LifecycleFrame m₁ m₂) (h₂ : LifecycleFrame m₂ m₃) : LifecycleFrame m₁ m₃ := by
  obtain ⟨a1, a2, a3, a4, a5, a6, a7⟩ := h₁
  obtain ⟨b1, b2, b3, b4, b5, b6, b7⟩ := h₂
  exact ⟨b1.trans a1, b2.trans a2, b3.trans a3, b4.trans a4, b5.trans a5,
         b6.trans a6, b7.trans a7⟩

theorem LifecycleFrame.refl (m : Manager Cfg Obs EnvS RP) : LifecycleFrame m m :=
  ⟨rfl, rfl, rfl, rfl, rfl, rfl, rfl⟩


theorem StepSlotSpec_congr (ops : EnvOps Cfg Obs Act EnvS RP E V) (budget : Option Nat)
    (rps : List RP) (m₁ m m' : Manager Cfg Obs EnvS RP) (j : Nat) (a : Act)
    (t : Timestep Obs)
    (hE : slotEnv m₁ j = slotEnv m j) (hC : slotCount m₁ j = slotCount m j)
    (hD : slotDone m₁ j = slotDone m j) (hO : slotObs m₁ j = slotObs m j)
    (h : StepSlotSpec ops budget rps m₁ m' j a t) :
    StepSlotSpec ops budget rps m m' j a t := by
  obtain ⟨env, env₁, h1, h2, h3, h4⟩ := h
  refine ⟨env, env₁, ?_, h2, ?_, ?_⟩
  · have h1' : slotEnv m₁ j = some env := h1
    rw [hE] at h1'
    exact h1'
  · rw [← hC, ← hD, ← hO]; exact h3
  · rw [← hC, ← hD]; exact h4

/-- Exact effect of one successful `step` loop iteration: only slot `i` is
touched, and it is touched exactly as the source's done/budget/auto-reset
branching dictates. -/
theorem stepOne_ok (ops : EnvOps Cfg Obs Act EnvS RP E V) (i : Nat) (a : Act)
    (m m₁ : Manager Cfg Obs EnvS RP) (t : Timestep Obs) (hwf : WF m)
    (h : stepOne ops i a m = (.ok t, m₁)) :
    WF m₁ ∧ LifecycleFrame m m₁ ∧ i < m.env_num ∧
    (∀ j, j ≠ i → slotEnv m₁ j = slotEnv m j ∧ slotCount m₁ j = slotCount m j ∧
      slotDone m₁ j = slotDone m j ∧ slotObs m₁ j = slotObs m j) ∧
    StepSlotSpec ops m.episode_num (m.reset_param.getD []) m m₁ i a t := by
  unfold stepOne at h
  cases henv : m.envs[i]? with
  | none => rw [henv] at h; simp at h
  | some env =>
    rw [henv] at h
    dsimp only at h
    cases hst : ops.step env a with
    | error e => rw [hst] at h; simp at h
    | ok pr =>
      obtain ⟨t₀, env₁⟩ := pr
      rw [hst] at h
      dsimp only at h
      have hiE : i < m.envs.length := (List.getElem?_eq_some.mp henv).1
      have hi : i < m.env_num := hwf.envs_len ▸ hiE
      have hiC : i < m.env_episode_count.length := by rw [hwf.counts_len]; exact hi
      have hiD : i < m.env_done.length := by rw [hwf.done_len]; exact hi
      have hiO : i < m.next_obs.length := by rw [hwf.obs_len]; exact hi
      by_cases ht : t₀.done = true
      · rw [if_pos ht] at h
        by_cases hb : some (m.env_episode_count[i]?.getD 0 + 1) = m.episode_num
        · rw [if_pos hb] at h
          obtain ⟨hts, rfl⟩ := (Prod.mk.injEq _ _ _ _).mp h
          obtain rfl : t = t₀ := by cases hts; rfl
          refine ⟨⟨by simpa using hwf.counts_len, by simpa using hwf.done_len,
                   by simpa using hwf.obs_len, by simpa using hwf.envs_len⟩,
                  LifecycleFrame.refl _, hi, ?_, ?_⟩
          · intro j hj
            refine ⟨?_, ?_, ?_, rfl⟩
            · show (m.envs.set i env₁)[j]? = m.envs[j]?
              exact List.getElem?_set_ne (fun hij => hj hij.symm)
            · show ((m.env_episode_count.set i _)[j]?.getD 0) = _
              rw [List.getElem?_set_ne (fun hij => hj hij.symm)]
              rfl
            · show ((m.env_done.set i true)[j]?.getD true) = _
              rw [List.getElem?_set_ne (fun hij => hj hij.symm)]
              rfl
          · refine ⟨env, env₁, henv, hst, fun _ => ⟨?_, fun _ => ⟨?_, ?_, rfl⟩, fun hb' => absurd hb.symm hb'⟩,
                    fun hf => absurd hf (by simp [ht])⟩
            · show ((m.env_episode_count.set i _)[i]?.getD 0) = m.env_episode_count[i]?.getD 0 + 1
              rw [List.getElem?_set_eq_of_lt _ hiC]
              rfl
            · show ((m.env_done.set i true)[i]?.getD true) = true
              rw [List.getElem?_set_eq_of_lt _ hiD]
              rfl
            · show (m.envs.set i env₁)[i]? = some env₁
              exact List.getElem?_set_eq_of_lt _ hiE
        · rw [if_neg hb] at h
          cases hrs : resetSlot ops i
              { m with envs := m.envs.set i env₁,
                       env_episode_count :=
                         m.env_episode_count.set i (m.env_episode_count[i]?.getD 0 + 1) } with
          | mk r m₂ =>
            rw [hrs] at h
            cases r with
            | error e => simp at h
            | ok u =>
              cases u
              obtain ⟨hts, rfl⟩ := (Prod.mk.injEq _ _ _ _).mp h
              obtain rfl : t = t₀ := by cases hts; rfl
              obtain ⟨envX, p, o, env₂, hX, hp, hres, hm₂⟩ := resetSlot_ok ops i _ m₂ hrs
              have hXi : env₁ = envX := by
                rw [List.getElem?_set_eq_of_lt _ hiE] at hX
                exact (Option.some.injEq _ _).mp hX
              subst hXi
              subst hm₂
              refine ⟨⟨by simpa using hwf.counts_len, by simpa using hwf.done_len,
                       by simpa using hwf.obs_len, by simpa using hwf.envs_len⟩,
                      LifecycleFrame.refl _, hi, ?_, ?_⟩
              · intro j hj
                refine ⟨?_, ?_, rfl, ?_⟩
                · show ((m.envs.set i env₁).set i env₂)[j]? = m.envs[j]?
                  rw [List.getElem?_set_ne (fun hij => hj hij.symm),
                      List.getElem?_set_ne (fun hij => hj hij.symm)]
                · show ((m.env_episode_count.set i _)[j]?.getD 0) = _
                  rw [List.getElem?_set_ne (fun hij => hj hij.symm)]
                  rfl
                · show ((m.next_obs.set i (some o))[j]?.getD none) = _
                  rw [List.getElem?_set_ne (fun hij => hj hij.symm)]
                  rfl
              · refine ⟨env, env₁, henv, hst,
                        fun _ => ⟨?_, fun hb' => absurd hb'.symm hb, fun _ => ⟨rfl, p, o, env₂, hp, hres, ?_, ?_⟩⟩,
                        fun hf => absurd hf (by simp [ht])⟩
                · show ((m.env_episode_count.set i _)[i]?.getD 0) = m.env_episode_count[i]?.getD 0 + 1
                  rw [List.getElem?_set_eq_of_lt _ hiC]
                  rfl
                · show ((m.envs.set i env₁).set i env₂)[i]? = some env₂
                  exact List.getElem?_set_eq_of_lt _ (by simpa using hiE)
                · show ((m.next_obs.set i (some o))[i]?.getD none) = some o
                  rw [List.getElem?_set_eq_of_lt _ hiO]
                  rfl
      · rw [if_neg ht] at h
        obtain ⟨hts, rfl⟩ := (Prod.mk.injEq _ _ _ _).mp h
        obtain rfl : t = t₀ := by cases hts; rfl
        have ht' : t.done = false := by
          cases hdf : t.done with
          | true => exact absurd hdf ht
          | false => rfl
        refine ⟨⟨by simpa using hwf.counts_len, by simpa using hwf.done_len,
                 by simpa using hwf.obs_len, by simpa using hwf.envs_len⟩,
                LifecycleFrame.refl _, hi, ?_, ?_⟩
        · intro j hj
          refine ⟨?_, rfl, rfl, ?_⟩
          · show (m.envs.set i env₁)[j]? = m.envs[j]?
            exact List.getElem?_set_ne (fun hij => hj hij.symm)
          · show ((m.next_obs.set i (some t.obs))[j]?.getD none) = _
            rw [List.getElem?_set_ne (fun hij => hj hij.symm)]
            rfl
        · refine ⟨env, env₁, henv, hst, fun hf => absurd hf (by simp [ht']),
                  fun _ => ⟨rfl, rfl, ?_, ?_⟩⟩
          · show ((m.next_obs.set i (some t.obs))[i]?.getD none) = some t.obs
            rw [List.getElem?_set_eq_of_lt _ hiO]
            rfl
          · show (m.envs.set i env₁)[i]? = some env₁
            exact List.getElem?_set_eq_of_lt _ hiE

/-- Any error exit of one `step` iteration went through `_safe_run`: the
pool has been fully closed (from the state at failure, whose `closed` flag
still equals the entry state's) and the error is the actor's exception or a
subscript error. -/
theorem stepOne_error (ops : EnvOps Cfg Obs Act EnvS RP E V) (i : Nat) (a : Act)
    (m m₁ : Manager Cfg Obs EnvS RP) (e : PoolErr E)
    (h : stepOne ops i a m = (.error e, m₁)) :
    ∃ mf : Manager Cfg Obs EnvS RP, mf.closed = m.closed ∧ m₁ = closePool ops mf ∧
      (e = .indexError ∨ ∃ x, e = .actorError x) := by
  unfold stepOne at h
  cases henv : m.envs[i]? with
  | none =>
    rw [henv] at h
    obtain ⟨he, rfl⟩ := (Prod.mk.injEq _ _ _ _).mp h
    cases he
    exact ⟨m, rfl, rfl, .inl rfl⟩
  | some env =>
    rw [henv] at h
    dsimp only at h
    cases hst : ops.step env a with
    | error x =>
      rw [hst] at h
      obtain ⟨he, rfl⟩ := (Prod.mk.injEq _ _ _ _).mp h
      cases he
      exact ⟨m, rfl, rfl, .inr ⟨x, rfl⟩⟩
    | ok pr =>
      obtain ⟨t₀, env₁⟩ := pr
      rw [hst] at h
      dsimp only at h
      by_cases ht : t₀.done = true
      · rw [if_pos ht] at h
        by_cases hb : some (m.env_episode_count[i]?.getD 0 + 1) = m.episode_num
        · rw [if_pos hb] at h
          simp at h
        · rw [if_neg hb] at h
          cases hrs : resetSlot ops i
              { m with envs := m.envs.set i env₁,
                       env_episode_count :=
                         m.env_episode_count.set i (m.env_episode_count[i]?.getD 0 + 1) } with
          | mk r m₂ =>
            rw [hrs] at h
            cases r with
            | ok u => simp at h
            | error e₀ =>
              obtain ⟨he, rfl⟩ := (Prod.mk.injEq _ _ _ _).mp h
              obtain rfl : e = e₀ := by cases he; rfl
              obtain ⟨hcp, hkind⟩ := resetSlot_error ops i _ m₂ e hrs
              refine ⟨_, ?_, hcp, hkind⟩
              rfl
      · rw [if_neg ht] at h
        simp at h

/-- Rewriting the after-state components of a `StepSlotSpec` along
equalities of slot `j`'s final components. -/
theorem StepSlotSpec_congr_after (ops : EnvOps Cfg Obs Act EnvS RP E V)
    (budget : Option Nat) (rps : List RP) (m m₁ m' : Manager Cfg Obs EnvS RP)
    (j : Nat) (a : Act) (t : Timestep Obs)
    (hE : slotEnv m' j = slotEnv m₁ j) (hC : slotCount m' j = slotCount m₁ j)
    (hD : slotDone m' j = slotDone m₁ j) (hO : slotObs m' j = slotObs m₁ j)
    (h : StepSlotSpec ops budget rps m m₁ j a t) :
    StepSlotSpec ops budget rps m m' j a t := by
  obtain ⟨env, env₁, h1, h2, h3, h4⟩ := h
  refine ⟨env, env₁, h1, h2, ?_, ?_⟩
  · rw [hC, hD, hO, hE]; exact h3
  · rw [hC, hD, hO, hE]; exact h4

/-- A successful `step` loop over distinct slot indices: the returned
timesteps are keyed exactly by the supplied indices in order, untargeted
slots are untouched, and each targeted slot evolved exactly per
`StepSlotSpec`. -/
theorem stepLoop_ok_spec (ops : EnvOps Cfg Obs Act EnvS RP E V) :
    ∀ (acts : List (Nat × Act)) (m : Manager Cfg Obs EnvS RP)
      (ts : List (Nat × Timestep Obs)) (m' : Manager Cfg Obs EnvS RP),
    stepLoop ops acts m = (.ok ts, m') →
    (acts.map Prod.fst).Nodup → WF m →
    WF m' ∧ LifecycleFrame m m' ∧
    ts.map Prod.fst = acts.map Prod.fst ∧
    (∀ j, j ∉ acts.map Prod.fst →
      slotEnv m' j = slotEnv m j ∧ slotCount m' j = slotCount m j ∧
      slotDone m' j = slotDone m j ∧ slotObs m' j = slotObs m j) ∧
    (∀ i a t, (i, a) ∈ acts → (i, t) ∈ ts →
      StepSlotSpec ops m.episode_num (m.reset_param.getD []) m m' i a t ∧
      i < m.env_num) := by
  intro acts
  induction acts with
  | nil =>
    intro m ts m' h _ hwf
    simp only [stepLoop] at h
    obtain ⟨hts, rfl⟩ := (Prod.mk.injEq _ _ _ _).mp h
    cases hts
    exact ⟨hwf, LifecycleFrame.refl m, by simp, fun j _ => ⟨rfl, rfl, rfl, rfl⟩,
           by simp⟩
  | cons pr rest ih =>
    obtain ⟨i, a⟩ := pr
    intro m ts m' h hnd hwf
    simp only [stepLoop] at h
    obtain ⟨hnotmem, hnd'⟩ := by
      rw [List.map_cons, List.nodup_cons] at hnd
      exact hnd
    cases hso : stepOne ops i a m with
    | mk r m₁ =>
      rw [hso] at h
      cases r with
      | error e => simp at h
      | ok t₀ =>
        dsimp only at h
        cases hrest : stepLoop ops rest m₁ with
        | mk r₂ m₂ =>
          rw [hrest] at h
          cases r₂ with
          | error e => simp at h
          | ok ts' =>
            obtain ⟨hts, rfl⟩ := (Prod.mk.injEq _ _ _ _).mp h
            obtain rfl : ts = (i, t₀) :: ts' := by cases hts; rfl
            obtain ⟨hwf₁, hlf₁, hi, huntouched₁, hspec₁⟩ :=
              stepOne_ok ops i a m m₁ t₀ hwf hso
            obtain ⟨hwf', hlf', hkeys', huntouched', hspec'⟩ :=
              ih m₁ ts' m₂ hrest hnd' hwf₁
            have lf1 := hlf₁.1
            have lf2 := hlf₁.2.1
            have lf4 := hlf₁.2.2.2.1
            refine ⟨hwf', LifecycleFrame.trans hlf₁ hlf', ?_, ?_, ?_⟩
            · simp [hkeys']
            · intro j hj
              rw [List.map_cons, List.mem_cons] at hj
              push_neg at hj
              obtain ⟨hji, hjrest⟩ := hj
              obtain ⟨u1, u2, u3, u4⟩ := huntouched' j hjrest
              obtain ⟨v1, v2, v3, v4⟩ := huntouched₁ j hji
              exact ⟨u1.trans v1, u2.trans v2, u3.trans v3, u4.trans v4⟩
            · intro j b t hmem hmemt
              rcases List.mem_cons.mp hmem with hhead | hrestmem
              · obtain ⟨hji, hba⟩ := (Prod.mk.injEq _ _ _ _).mp hhead
                have htt : t = t₀ := by
                  rcases List.mem_cons.mp hmemt with hh | htail
                  · exact ((Prod.mk.injEq _ _ _ _).mp hh).2
                  · exfalso
                    have hmm : j ∈ List.map Prod.fst ts' :=
                      List.mem_map_of_mem Prod.fst htail
                    rw [hkeys', hji] at hmm
                    exact hnotmem hmm
                subst hji
                subst hba
                subst htt
                obtain ⟨u1, u2, u3, u4⟩ := huntouched' j hnotmem
                exact ⟨StepSlotSpec_congr_after ops _ _ m m₁ m₂ j b t u1 u2 u3 u4 hspec₁,
                       hi⟩
              · have hji : j ≠ i := by
                  intro hq
                  have hmm : j ∈ List.map Prod.fst rest :=
                    List.mem_map_of_mem Prod.fst hrestmem
                  rw [hq] at hmm
                  exact hnotmem hmm
                have hmemt' : (j, t) ∈ ts' := by
                  rcases List.mem_cons.mp hmemt with hh | htail
                  · exact absurd ((Prod.mk.injEq _ _ _ _).mp hh).1 hji
                  · exact htail
                obtain ⟨hspec, hjlt⟩ := hspec' j b t hrestmem hmemt'
                obtain ⟨v1, v2, v3, v4⟩ := huntouched₁ j hji
                rw [lf2, lf4] at hspec
                refine ⟨StepSlotSpec_congr ops _ _ m₁ m m₂ j b t v1 v2 v3 v4 hspec, ?_⟩
                rw [← lf1]
                exact hjlt

/-- A successful `step` iteration never toggles the `closed` flag. -/
theorem stepOne_ok_closed (ops : EnvOps Cfg Obs Act EnvS RP E V) (i : Nat) (a : Act)
    (m m₁ : Manager Cfg Obs EnvS RP) (t : Timestep Obs)
    (h : stepOne ops i a m = (.ok t, m₁)) : m₁.closed = m.closed := by
  unfold stepOne at h
  cases henv : m.envs[i]? with
  | none => rw [henv] at h; simp at h
  | some env =>
    rw [henv] at h
    dsimp only at h
    cases hst : ops.step env a with
    | error e => rw [hst] at h; simp at h
    | ok pr =>
      obtain ⟨t₀, env₁⟩ := pr
      rw [hst] at h
      dsimp only at h
      by_cases ht : t₀.done = true
      · rw [if_pos ht] at h
        by_cases hb : some (m.env_episode_count[i]?.getD 0 + 1) = m.episode_num
        · rw [if_pos hb] at h
          obtain ⟨-, rfl⟩ := (Prod.mk.injEq _ _ _ _).mp h
          rfl
        · rw [if_neg hb] at h
          cases hrs : resetSlot ops i
              { m with envs := m.envs.set i env₁,
                       env_episode_count :=
                         m.env_episode_count.set i (m.env_episode_count[i]?.getD 0 + 1) } with
          | mk r m₂ =>
            rw [hrs] at h
            cases r with
            | error e => simp at h
            | ok u =>
              obtain ⟨-, rfl⟩ := (Prod.mk.injEq _ _ _ _).mp h
              obtain ⟨env₀, p, o, env₂, -, -, -, hm₂⟩ := resetSlot_ok ops i _ m₂ hrs
              rw [hm₂]
      · rw [if_neg ht] at h
        obtain ⟨-, rfl⟩ := (Prod.mk.injEq _ _ _ _).mp h
        rfl

/-- Any error exit of the `step` loop closed the pool from the state at the
failing pair (whose `closed` flag equals the entry state's). -/
theorem stepLoop_error (ops : EnvOps Cfg Obs Act EnvS RP E V) :
    ∀ (acts : List (Nat × Act)) (m m' : Manager Cfg Obs EnvS RP) (e : PoolErr E),
    stepLoop ops acts m = (.error e, m') →
    ∃ mf : Manager Cfg Obs EnvS RP, mf.closed = m.closed ∧ m' = closePool ops mf ∧
      (e = .indexError ∨ ∃ x, e = .actorError x) := by
  intro acts
  induction acts with
  | nil =>
    intro m m' e h
    simp [stepLoop] at h
  | cons pr rest ih =>
    obtain ⟨i, a⟩ := pr
    intro m m' e h
    simp only [stepLoop] at h
    cases hso : stepOne ops i a m with
    | mk r m₁ =>
      rw [hso] at h
      cases r with
      | error e₀ =>
        obtain ⟨he, rfl⟩ := (Prod.mk.injEq _ _ _ _).mp h
        obtain rfl : e = e₀ := by cases he; rfl
        exact stepOne_error ops i a m m₁ e hso
      | ok t₀ =>
        dsimp only at h
        cases hrest : stepLoop ops rest m₁ with
        | mk r₂ m₂ =>
          rw [hrest] at h
          cases r₂ with
          | ok ts' => simp at h
          | error e₂ =>
            obtain ⟨he, rfl⟩ := (Prod.mk.injEq _ _ _ _).mp h
            obtain rfl : e = e₂ := by cases he; rfl
            obtain ⟨mf, hcl, rfl, hkind⟩ := ih m₁ m₂ e hrest
            exact ⟨mf, hcl.trans (stepOne_ok_closed ops i a m m₁ t₀ hso), rfl, hkind⟩

/-- `step` on a closed pool: `_check_closed`'s assertion fires before any
slot is touched — the state is returned unchanged. -/
theorem step_closed_check (ops : EnvOps Cfg Obs Act EnvS RP E V)
    (action : List (Nat × Act)) (m : Manager Cfg Obs EnvS RP) (h : m.closed = true) :
    step ops action m = (.error .stateError, m) := by
  unfold step
  rw [h]
  simp

theorem step_open_eq (ops : EnvOps Cfg Obs Act EnvS RP E V)
    (action : List (Nat × Act)) (m : Manager Cfg Obs EnvS RP) (h : m.closed = false) :
    step ops action m = stepLoop ops action m := by
  unfold step
  rw [h]
  simp

/-- Error classification for `step`: either the closed-pool assertion fired
(state untouched) or an actor/subscript exception fired inside `_safe_run`
(pool fully closed before the exception propagates). -/
theorem step_error_cases (ops : EnvOps Cfg Obs Act EnvS RP E V)
    (action : List (Nat × Act)) (m m' : Manager Cfg Obs EnvS RP) (e : PoolErr E)
    (h : step ops action m = (.error e, m')) :
    (m.closed = true ∧ e = .stateError ∧ m' = m) ∨
    (m.closed = false ∧ ∃ mf : Manager Cfg Obs EnvS RP, mf.closed = false ∧
      m' = closePool ops mf ∧ (e = .indexError ∨ ∃ x, e = .actorError x)) := by
  cases hcl : m.closed with
  | true =>
    rw [step_closed_check ops action m hcl] at h
    obtain ⟨he, rfl⟩ := (Prod.mk.injEq _ _ _ _).mp h
    obtain rfl : e = .stateError := by cases he; rfl
    exact .inl ⟨rfl, rfl, rfl⟩
  | false =>
    rw [step_open_eq ops action m hcl] at h
    obtain ⟨mf, hcf, rfl, hkind⟩ := stepLoop_error ops action m m' e h
    exact .inr ⟨rfl, mf, hcf.trans hcl, rfl, hkind⟩

/-! ## Episode-count bookkeeping never happens outside `step` -/

theorem resetSlot_counts (ops : EnvOps Cfg Obs Act EnvS RP E V) (i : Nat)
    (m : Manager Cfg Obs EnvS RP) :
    ((resetSlot ops i m).2).env_episode_count = m.env_episode_count ∧
    ((resetSlot ops i m).2).env_done = m.env_done := by
  cases hrs : resetSlot ops i m with
  | mk r m₁ =>
    cases r with
    | error e =>
      obtain ⟨hm, -⟩ := resetSlot_error ops i m m₁ e hrs
      rw [hm]
      exact ⟨(closePool_frame ops m).2.1, (closePool_frame ops m).2.2.1⟩
    | ok u =>
      cases u
      obtain ⟨env, p, o, env', -, -, -, hm⟩ := resetSlot_ok ops i m m₁ hrs
      rw [hm]
      exact ⟨rfl, rfl⟩

theorem runResets_counts (ops : EnvOps Cfg Obs Act EnvS RP E V) :
    ∀ (idxs : List Nat) (m : Manager Cfg Obs EnvS RP),
    ((runResets ops idxs m).2).env_episode_count = m.env_episode_count ∧
    ((runResets ops idxs m).2).env_done = m.env_done := by
  intro idxs
  induction idxs with
  | nil => intro m; exact ⟨rfl, rfl⟩
  | cons i rest ih =>
    intro m
    simp only [runResets]
    cases hrs : resetSlot ops i m with
    | mk r m₁ =>
      have hc : m₁.env_episode_count = m.env_episode_count ∧ m₁.env_done = m.env_done := by
        have := resetSlot_counts ops i m
        rw [hrs] at this
        exact this
      cases r with
      | error e => exact hc
      | ok u => exact ⟨(ih m₁).1.trans hc.1, (ih m₁).2.trans hc.2⟩

/-- A `reset` call — whatever its outcome — leaves every slot's episode
count and pool-level done flag unchanged. -/
theorem reset_counts (ops : EnvOps Cfg Obs Act EnvS RP E V) (rp : Option (List RP))
    (m : Manager Cfg Obs EnvS RP) :
    ((reset ops rp m).2).env_episode_count = m.env_episode_count ∧
    ((reset ops rp m).2).env_done = m.env_done := by
  rw [reset_eq]
  exact runResets_counts ops _ _

/-! ## The episode-count / pool-done invariant -/


/-- One successful `step` call, targeting distinct non-pool-done slots,
preserves the invariant. -/
theorem step_preserves_CountInv (ops : EnvOps Cfg Obs Act EnvS RP E V) (B : Nat)
    (acts : List (Nat × Act)) (m : Manager Cfg Obs EnvS RP)
    (ts : List (Nat × Timestep Obs)) (m' : Manager Cfg Obs EnvS RP)
    (hB : m.episode_num = some B) (hwf : WF m)
    (hnd : (acts.map Prod.fst).Nodup)
    (htgt : ∀ p ∈ acts, slotDone m p.1 = false)
    (hinv : CountInv B m)
    (h : step ops acts m = (.ok ts, m')) :
    CountInv B m' ∧ WF m' ∧ LifecycleFrame m m' := by
  have hcl : m.closed = false := by
    cases hcl : m.closed with
    | true => rw [step_closed_check ops acts m hcl] at h; simp at h
    | false => rfl
  rw [step_open_eq ops acts m hcl] at h
  obtain ⟨hwf', hlf', hkeys', huntouched', hspec'⟩ :=
    stepLoop_ok_spec ops acts m ts m' h hnd hwf
  refine ⟨?_, hwf', hlf'⟩
  intro i hi
  have hi' : i < m.env_num := hlf'.1 ▸ hi
  by_cases hmem : i ∈ acts.map Prod.fst
  · obtain ⟨p, hpmem, hpfst⟩ := List.mem_map.mp hmem
    obtain ⟨ia, aa⟩ := p
    obtain rfl : i = ia := hpfst.symm
    have hts : i ∈ ts.map Prod.fst := hkeys' ▸ hmem
    obtain ⟨q, hqmem, hqfst⟩ := List.mem_map.mp hts
    obtain ⟨iq, t⟩ := q
    obtain rfl : i = iq := hqfst.symm
    obtain ⟨hspec, -⟩ := hspec' i aa t hpmem hqmem
    obtain ⟨env, env₁, -, -, hdone, hnotdone⟩ := hspec
    have hdfalse : slotDone m i = false := htgt (i, aa) hpmem
    obtain ⟨hle, hiff⟩ := hinv i hi'
    have hne : slotCount m i ≠ B := by
      intro hq
      rw [← hiff] at hq
      rw [hdfalse] at hq
      cases hq
    have hlt : slotCount m i < B := lt_of_le_of_ne hle hne
    cases ht : t.done with
    | false =>
      obtain ⟨hc, hd, -, -⟩ := hnotdone ht
      rw [hc, hd]
      exact ⟨hle, hiff⟩
    | true =>
      obtain ⟨hc, hbpos, hbneg⟩ := hdone ht
      by_cases hbe : B = slotCount m i + 1
      · obtain ⟨hd, -, -⟩ := hbpos (by rw [hB, hbe])
        rw [hc, hd, ← hbe]
        simp
      · obtain ⟨hd, -⟩ := hbneg (by rw [hB]; intro hq; exact hbe ((Option.some.injEq _ _).mp hq))
        rw [hc, hd, hdfalse]
        constructor
        · exact Nat.succ_le_of_lt hlt
        · constructor
          · intro hq; cases hq
          · intro hq; exact absurd hq.symm hbe
  · obtain ⟨-, hc, hd, -⟩ := huntouched' i hmem
    rw [hc, hd]
    exact hinv i hi'


/-- The invariant holds after any valid sequence of `step` calls. -/
theorem runSteps_CountInv (ops : EnvOps Cfg Obs Act EnvS RP E V) (B : Nat) :
    ∀ (calls : List (List (Nat × Act))) (m : Manager Cfg Obs EnvS RP),
    m.episode_num = some B → WF m → CountInv B m → ValidCalls ops calls m →
    CountInv B (runSteps ops calls m).2 := by
  intro calls
  induction calls with
  | nil => intro m _ _ hinv _; exact hinv
  | cons acts rest ih =>
    intro m hB hwf hinv hvalid
    obtain ⟨hnd, htgt, hrest⟩ := hvalid
    simp only [runSteps]
    cases hst : step ops acts m with
    | mk r m' =>
      rw [hst] at hrest
      cases r with
      | error e => exact absurd hrest (by simp)
      | ok ts =>
        obtain ⟨hinv', hwf', hlf'⟩ :=
          step_preserves_CountInv ops B acts m ts m' hB hwf hnd htgt hinv hst
        exact ih m' (hlf'.2.1.trans hB) hwf' hinv' hrest

/-! ## A concrete instrumented environment, used to exercise the theorems
on explicit inputs -/


/-- `close()` on an open pool: every actor is passed through the actor
`close` exactly once, then the flag is set. -/
theorem closePool_open (ops : EnvOps Cfg Obs Act EnvS RP E V)
    (m : Manager Cfg Obs EnvS RP) (h : m.closed = false) :
    closePool ops m = { m with env_ref := m.env_ref.map ops.close,
                               envs := m.envs.map ops.close, closed := true } := by
  unfold closePool
  rw [h]
  simp


/-! ## Claims -/

/-- **C3** (amended): on a closed pool, `step` fails with the lifecycle
assertion (`StateError`) and returns the state unchanged; `reset`, however,
performs no closed-state check — it can never fail with `StateError`
(its only failures are actor/subscript exceptions surfaced by
`_safe_run`). -/
theorem C3_closed_pool_behavior (ops : EnvOps Cfg Obs Act EnvS RP E V)
    (m : Manager Cfg Obs EnvS RP) (hcl : m.closed = true) :
    (∀ action, step ops action m = (.error .stateError, m)) ∧
    (∀ rp r m', reset ops rp m = (r, m') → r ≠ .error .stateError) := by
  refine ⟨fun action => step_closed_check ops action m hcl, ?_⟩
  intro rp r m' h hq
  subst hq
  obtain ⟨mf, -, -, hkind⟩ := reset_error ops rp m m' _ h
  rcases hkind with h1 | ⟨x, h2⟩
  · cases h1
  · cases h2

/-- **C3** witness: the amended behavior on the concrete closed pool. -/
theorem C3_witness :
    step testOps [(0, true)] mClosedPool = (.error .stateError, mClosedPool) ∧
    (reset testOps none mClosedPool).1 ≠ .error PoolErr.stateError :=
  ⟨(C3_closed_pool_behavior testOps mClosedPool (by decide)).1 [(0, true)],
   (C3_closed_pool_behavior testOps mClosedPool (by decide)).2 none
     (reset testOps none mClosedPool).1 (reset testOps none mClosedPool).2 rfl⟩

/-- **C3** counterexample: the claim as stated is false — `reset` on a
closed pool does not fail with `StateError`; here it succeeds outright. -/
theorem C3_counterexample :
    mClosedPool.closed = true ∧
    (reset testOps none mClosedPool).1 = .ok () ∧
    (reset testOps none mClosedPool).1 ≠ .error PoolErr.stateError := by
  refine ⟨by decide, by decide, by decide⟩

/-- **C5** (amended): `_create_state` sets `closedFlag` to *false* before
any actor is constructed, so when the factory raises during `launch` the
exception reaches the caller with the pool in the *open* state — the
claimed "still closed" ordering does not hold. -/
theorem C5_open_before_actors (ops : EnvOps Cfg Obs Act EnvS RP E V)
    (m : Manager Cfg Obs EnvS RP) :
    ((createState ops m).2).closed = false ∧
    (∀ rp e m₁, m.closed = true → createState ops m = (.error e, m₁) →
      launch ops rp m = (.error e, m₁) ∧ m₁.closed = false) := by
  have hfirst : ((createState ops m).2).closed = false := by
    unfold createState
    dsimp only
    cases m.env_cfg.head? with
    | none => rfl
    | some c0 =>
      dsimp only
      cases ops.create c0 with
      | error e => rfl
      | ok ref =>
        dsimp only
        cases createAll ops m.env_cfg with
        | error e => rfl
        | ok es =>
          dsimp only
          by_cases hl : es.length = m.env_num
          · rw [if_pos hl]
          · rw [if_neg hl]
  refine ⟨hfirst, ?_⟩
  intro rp e m₁ hcl h
  constructor
  · unfold launch
    rw [hcl, if_pos rfl, h]
  · have hsnd : (createState ops m).2 = m₁ := congrArg Prod.snd h
    rw [← hsnd]
    exact hfirst

/-- **C5** witness: the amended behavior at a concrete failing factory. -/
theorem C5_witness :
    launch failCreateOps none mInit1 =
      (.error (.actorError ()), (createState failCreateOps mInit1).2) ∧
    ((createState failCreateOps mInit1).2).closed = false :=
  (C5_open_before_actors failCreateOps mInit1).2 none (.actorError ())
    ((createState failCreateOps mInit1).2) rfl (by decide)

/-- **C5** counterexample: after a factory exception during `launch`, the
pool is open (`closed = false`), not closed as the claim states. -/
theorem C5_counterexample :
    mInit1.closed = true ∧
    (launch failCreateOps none mInit1).1 = .error (.actorError ()) ∧
    ((launch failCreateOps none mInit1).2).closed = false := by
  refine ⟨by decide, by decide, by decide⟩

/-- **C7**: `close()` is idempotent — a second `close` is a no-op — and a
single `close` on an open pool passes the reference actor and every slot
actor through the actor-level `close` exactly once (the closed pool's actor
lists are precisely the `map` of `close` over the open pool's) before
setting `closedFlag`. -/
theorem C7_close_idempotent (ops : EnvOps Cfg Obs Act EnvS RP E V)
    (m : Manager Cfg Obs EnvS RP) :
    closePool ops (closePool ops m) = closePool ops m ∧
    (m.closed = true → closePool ops m = m) ∧
    (m.closed = false →
      closePool ops m = { m with env_ref := m.env_ref.map ops.close,
                                 envs := m.envs.map ops.close, closed := true }) := by
  have hnoop : ∀ x : Manager Cfg Obs EnvS RP, x.closed = true → closePool ops x = x := by
    intro x hx
    unfold closePool
    rw [hx]
    simp
  refine ⟨hnoop _ (closePool_closed ops m), hnoop m, ?_⟩
  intro h
  unfold closePool
  rw [h]
  simp

/-- **C7** witness: on the concrete launched pool. -/
theorem C7_witness :
    closePool testOps mPool =
      { mPool with env_ref := mPool.env_ref.map testOps.close,
                   envs := mPool.envs.map testOps.close, closed := true } :=
  (C7_close_idempotent testOps mPool).2.2 (by decide)

/-- **C9**: capability forwarding — a name the reference actor lacks fails
with `AttributeError`; a bound method outside {reset, step, seed, close}
fails with `RuntimeError`; any other attribute requires the pool to be open
and returns the per-slot values in order, with `None` for slots lacking
it. -/
theorem C9_capability_forwarding (ops : EnvOps Cfg Obs Act EnvS RP E V) (ref : EnvS)
    (key : String) (m : Manager Cfg Obs EnvS RP) :
    (ops.attr ref key = none →
      getattrPool ops ref key m = (.error .attributeNotFound, m)) ∧
    (∀ v, ops.attr ref key = some (true, v) → key ∉ methodNameList →
      getattrPool ops ref key m = (.error .unsupportedCapability, m)) ∧
    (∀ b v, ops.attr ref key = some (b, v) → (b = false ∨ key ∈ methodNameList) →
      (m.closed = true → getattrPool ops ref key m = (.error .stateError, m)) ∧
      (m.closed = false → getattrPool ops ref key m =
        (.ok (m.envs.map fun e => (ops.attr e key).map Prod.snd), m))) := by
  refine ⟨?_, ?_, ?_⟩
  · intro h
    unfold getattrPool
    rw [h]
  · intro v h hkey
    unfold getattrPool
    rw [h]
    dsimp only
    rw [if_pos ⟨rfl, hkey⟩]
  · intro b v h hcond
    have hneg : ¬(b = true ∧ key ∉ methodNameList) := by
      rintro ⟨hb, hk⟩
      rcases hcond with hb' | hk'
      · rw [hb'] at hb; cases hb
      · exact hk hk'
    constructor
    · intro hcl
      unfold getattrPool
      rw [h]
      dsimp only
      rw [if_neg hneg, if_pos hcl]
    · intro hcl
      unfold getattrPool
      rw [h]
      dsimp only
      rw [if_neg hneg, if_neg (by rw [hcl]; exact fun hq => nomatch hq)]

/-- **C9** witness: the three behaviors on the concrete pool — a missing
attribute, a non-whitelisted method, and a data attribute broadcast. -/
theorem C9_witness :
    getattrPool testOps {} "missing" mPool = (.error .attributeNotFound, mPool) ∧
    getattrPool testOps {} "render" mPool = (.error .unsupportedCapability, mPool) ∧
    getattrPool testOps {} "observation_space" mPool = (.ok [some 7, some 7], mPool) := by
  refine ⟨?_, ?_, ?_⟩
  · exact (C9_capability_forwarding testOps {} "missing" mPool).1 (by decide)
  · exact (C9_capability_forwarding testOps {} "render" mPool).2.1 0 (by decide) (by decide)
  · have h := ((C9_capability_forwarding testOps {} "observation_space" mPool).2.2
      false 7 (by decide) (.inl rfl)).2 (by decide)
    rw [h]
    decide

/-- **C4**: immediately after a successful `launch` — first launch or
relaunch after `close` — the `next_obs` query has exactly one entry per
slot index `0..N-1`, every episode count is `0`, every pool-done flag is
`false`, and the pool-done query is `false`.  (A successful launch forces
`N ≥ 1`, since `_create_state` subscripts `env_cfg[0]` and asserts the
actor count.) -/
theorem C4_launch_postconditions (ops : EnvOps Cfg Obs Act EnvS RP E V)
    (rp : Option (List RP)) (m m' : Manager Cfg Obs EnvS RP)
    (h : launch ops rp m = (.ok (), m')) :
    0 < m.env_num ∧ m'.env_num = m.env_num ∧
    (nextObs m').map Prod.fst = List.range m.env_num ∧
    (nextObs m').length = m.env_num ∧
    (∀ i, i < m.env_num → slotCount m' i = 0) ∧
    (∀ i, i < m.env_num → slotDone m' i = false) ∧
    m'.env_episode_count = List.replicate m.env_num 0 ∧
    m'.env_done = List.replicate m.env_num false ∧
    poolDone m' = false := by
  obtain ⟨hcl, m₁, hcs, hrs⟩ := launch_ok ops rp m m' h
  obtain ⟨c1, c2, c3, c4, c5, c6, c7, c8, c9, c10, c11, c12⟩ :=
    createState_ok ops m m₁ hcs
  have hlen : m₁.next_obs.length = m₁.envs.length := by
    rw [c7, c8]
    simp
  obtain ⟨r1, r2, r3, r4, r5, r6, r7, r8, r9, r10, r11, r12⟩ :=
    reset_ok ops rp m₁ m' hrs hlen
  have hnum : m'.env_num = m.env_num := r4.trans c2
  have hcounts : m'.env_episode_count = List.replicate m.env_num 0 := r2.trans c5
  have hdone : m'.env_done = List.replicate m.env_num false := r3.trans c6
  have hall : ∀ b ∈ m'.env_done, b = false := by
    intro b hb
    rw [hdone] at hb
    exact List.eq_of_mem_replicate hb
  have hform := nextObs_of_no_done m' hall
  have hdlen : m'.env_done.length = m.env_num := by rw [hdone]; simp
  refine ⟨c12, hnum, ?_, ?_, ?_, ?_, hcounts, hdone, ?_⟩
  · rw [hform, hdlen, List.map_map]
    have hcomp : Prod.fst ∘ (fun i : Nat => (i, m'.next_obs[i]?.getD none)) = id := rfl
    rw [hcomp, List.map_id]
  · rw [hform, hdlen]
    simp
  · intro i hi
    unfold slotCount
    rw [hcounts]
    rw [List.getElem?_replicate]
    simp [hi]
  · intro i hi
    unfold slotDone
    rw [hdone]
    rw [List.getElem?_replicate]
    simp [hi]
  · exact poolDone_replicate_false m' m.env_num c12 hdone

/-- **C4** witness: the concrete 2-slot budget-2 pool after launch. -/
theorem C4_witness :
    (nextObs mPool).map Prod.fst = List.range 2 ∧ poolDone mPool = false ∧
    mPool.env_episode_count = [0, 0] ∧ mPool.env_done = [false, false] := by
  have h := C4_launch_postconditions testOps none mInit2 mPool (by decide)
  exact ⟨h.2.2.1, h.2.2.2.2.2.2.2.2, by rw [h.2.2.2.2.2.2.1]; decide,
         by rw [h.2.2.2.2.2.2.2.1]; decide⟩

/-- **C8**: a successful full `reset` resets the actor of *every* slot
`0..N-1` — pool-done slots included — storing each reset observation as the
slot's last observation, while leaving all episode counts and pool-level
done flags exactly as they were. -/
theorem C8_reset_all_slots (ops : EnvOps Cfg Obs Act EnvS RP E V)
    (rp : Option (List RP)) (m m' : Manager Cfg Obs EnvS RP) (hwf : WF m)
    (h : reset ops rp m = (.ok (), m')) :
    m'.env_episode_count = m.env_episode_count ∧
    m'.env_done = m.env_done ∧
    (∀ i, i < m.env_num → slotDone m' i = slotDone m i ∧
      slotCount m' i = slotCount m i) ∧
    (∀ i, i < m.env_num →
      ∃ env p o env', (seedAdjEnvs ops m)[i]? = some env ∧
        (effParams ops rp m)[i]? = some p ∧
        ops.reset env p = .ok (o, env') ∧ m'.envs[i]? = some env' ∧
        m'.next_obs[i]? = some (some o)) := by
  have hlen : m.next_obs.length = m.envs.length := by
    rw [hwf.obs_len, hwf.envs_len]
  obtain ⟨r1, r2, r3, r4, r5, r6, r7, r8, r9, r10, r11, r12⟩ :=
    reset_ok ops rp m m' h hlen
  refine ⟨r2, r3, ?_, r1⟩
  intro i _
  constructor
  · unfold slotDone; rw [r3]
  · unfold slotCount; rw [r2]

/-- **C8** witness: on a pool whose slot 0 is already pool-done, `reset`
still resets slot 0's actor and stores its observation, and leaves the done
flags and counts untouched. -/
theorem C8_witness :
    ((reset testOps none { mPool with env_done := [true, false] }).2).env_done
        = [true, false] ∧
    ((reset testOps none { mPool with env_done := [true, false] }).2).next_obs
        = [some 101, some 101] := by
  have h := C8_reset_all_slots testOps none { mPool with env_done := [true, false] }
    (reset testOps none { mPool with env_done := [true, false] }).2
    ⟨by decide, by decide, by decide, by decide⟩ (by decide)
  refine ⟨h.2.1, by decide⟩

/-- **C2**: an exception from an actor's `step`/`reset` during pool
`step`/`reset` triggers a full `close()` — reference actor and every slot
actor passed through actor `close`, flag set — before the *same* exception
is re-raised; no actor exception is swallowed. -/
theorem C2_fail_fast (ops : EnvOps Cfg Obs Act EnvS RP E V)
    (m : Manager Cfg Obs EnvS RP) (hopen : m.closed = false) :
    (∀ acts err m', step ops acts m = (.error (.actorError err), m') →
      m'.closed = true ∧ ∃ mf : Manager Cfg Obs EnvS RP, mf.closed = false ∧
        m' = closePool ops mf ∧ m'.env_ref = mf.env_ref.map ops.close ∧
        m'.envs = mf.envs.map ops.close) ∧
    (∀ rp err m', reset ops rp m = (.error (.actorError err), m') →
      m'.closed = true ∧ ∃ mf : Manager Cfg Obs EnvS RP, mf.closed = false ∧
        m' = closePool ops mf ∧ m'.env_ref = mf.env_ref.map ops.close ∧
        m'.envs = mf.envs.map ops.close) ∧
    (∀ i a env err, m.envs[i]? = some env → ops.step env a = .error err →
      step ops [(i, a)] m = (.error (.actorError err), closePool ops m)) ∧
    (∀ i env p err, m.envs[i]? = some env →
      (m.reset_param.getD [])[i]? = some p → ops.reset env p = .error err →
      resetSlot ops i m = (.error (.actorError err), closePool ops m)) := by
  refine ⟨?_, ?_, ?_, ?_⟩
  · intro acts err m' h
    rcases step_error_cases ops acts m m' _ h with ⟨-, he, -⟩ | ⟨-, mf, hcf, rfl, -⟩
    · cases he
    · exact ⟨closePool_closed ops mf, mf, hcf, rfl, by rw [closePool_open ops mf hcf],
             by rw [closePool_open ops mf hcf]⟩
  · intro rp err m' h
    obtain ⟨mf, hcf, rfl, -⟩ := reset_error ops rp m m' _ h
    have hcf' : mf.closed = false := hcf.trans hopen
    exact ⟨closePool_closed ops mf, mf, hcf', rfl, by rw [closePool_open ops mf hcf'],
           by rw [closePool_open ops mf hcf']⟩
  · intro i a env err henv hst
    rw [step_open_eq ops [(i, a)] m hopen]
    simp only [stepLoop]
    unfold stepOne
    rw [henv]
    dsimp only
    rw [hst]
  · intro i env p err henv hp hres
    unfold resetSlot
    rw [henv, hp]
    dsimp only
    rw [hres]

/-- **C2** witness: a failing actor step on the concrete launched pool
closes the whole pool and surfaces the actor's exception verbatim. -/
theorem C2_witness :
    step failStepOps [(0, true)] mPool =
      (.error (.actorError ()), closePool failStepOps mPool) ∧
    ((step failStepOps [(0, true)] mPool).2).closed = true := by
  refine ⟨(C2_fail_fast failStepOps mPool (by decide)).2.2.1 0 true
      { resetCount := 1 } () (by decide) (by decide), by decide⟩

theorem effParams_length (ops : EnvOps Cfg Obs Act EnvS RP E V)
    (rp : Option (List RP)) (m : Manager Cfg Obs EnvS RP)
    (hrp : ∀ l, rp = some l → l.length = m.env_num) :
    (effParams ops rp m).length = m.env_num := by
  unfold effParams
  cases rp with
  | none => simp
  | some l => simpa using hrp l rfl

/-- **C6** (amended): seeds stored via `seed` are applied — each slot's
seed strictly before that slot's reset — on the next `reset` call, but they
are *not* consumed by it: `_env_seed` persists unchanged, so the same seeds
are re-applied on every subsequent `reset`. -/
theorem C6_seed_then_reset_persistent (ops : EnvOps Cfg Obs Act EnvS RP E V)
    (m m' : Manager Cfg Obs EnvS RP) (seeds : List Int) (rp : Option (List RP))
    (hwf : WF m) (hseed : m.env_seed = some seeds)
    (h : reset ops rp m = (.ok (), m')) :
    m'.env_seed = some seeds ∧
    (∀ i s env, seeds[i]? = some s → m.envs[i]? = some env → i < m.env_num →
      ∃ p o env', (effParams ops rp m)[i]? = some p ∧
        ops.reset (ops.seed env s) p = .ok (o, env') ∧
        m'.envs[i]? = some env' ∧ m'.next_obs[i]? = some (some o)) := by
  have hlen : m.next_obs.length = m.envs.length := by
    rw [hwf.obs_len, hwf.envs_len]
  obtain ⟨r1, r2, r3, r4, r5, r6, r7, r8, r9, r10, r11, r12⟩ :=
    reset_ok ops rp m m' h hlen
  refine ⟨r8.trans hseed, ?_⟩
  intro i s env hs henv hi
  obtain ⟨env₀, p, o, env', h1, h2, h3, h4, h5⟩ := r1 i hi
  have hseedadj : (seedAdjEnvs ops m)[i]? = some (ops.seed env s) := by
    unfold seedAdjEnvs
    rw [hseed, applySeeds_getElem_lt ops m.envs seeds i s hs, henv]
    rfl
  rw [hseedadj] at h1
  have henv₀ : ops.seed env s = env₀ := (Option.some.injEq _ _).mp h1
  subst henv₀
  exact ⟨p, o, env', h2, h3, h4, h5⟩


/-- **C6** witness: the amended behavior — seed 5 is applied before the
slot's reset on the next reset call, and the seed list persists. -/
theorem C6_witness :
    ((reset testOps none (seedPool [5] mSeedPool)).2).env_seed = some [5] ∧
    ((reset testOps none (seedPool [5] mSeedPool)).2).envs.map TestEnv.seedLog
      = [[5]] := by
  have h := C6_seed_then_reset_persistent testOps (seedPool [5] mSeedPool)
      (reset testOps none (seedPool [5] mSeedPool)).2 [5] none
      ⟨by decide, by decide, by decide, by decide⟩ rfl (by decide)
  exact ⟨h.1, by decide⟩

/-- **C6** counterexample: the stored seeds are *re-applied* by the second
`reset` call — after `seed([5])` and two resets the slot actor has received
the seed twice, contradicting "consumed by that reset, not applied again on
any later reset call" (which would leave the log at `[5]`). -/
theorem C6_counterexample :
    (((reset testOps none
        (reset testOps none (seedPool [5] mSeedPool)).2).2).envs.map
          TestEnv.seedLog) = [[5, 5]] ∧
    [[(5 : Int), 5]] ≠ [[(5 : Int)]] := by
  exact ⟨by decide, by decide⟩

/-- **C10**: a seed list shorter than the slot count pairs seeds with slots
in index order, seeding exactly the first `len(seeds)` slots before their
resets (`zip` truncation); the remaining slots are reset without seeding;
no length-mismatch error is raised — with every actor reset succeeding, the
whole `reset` call succeeds. -/
theorem C10_short_seed_list (ops : EnvOps Cfg Obs Act EnvS RP E V)
    (m : Manager Cfg Obs EnvS RP) (seeds : List Int) (rp : Option (List RP))
    (hwf : WF m) (hseed : m.env_seed = some seeds)
    (hres : ∀ e p, ∃ o e', ops.reset e p = .ok (o, e'))
    (hrp : ∀ l, rp = some l → l.length = m.env_num) :
    ∃ m', reset ops rp m = (.ok (), m') ∧
      (∀ i s env, seeds[i]? = some s → m.envs[i]? = some env → i < m.env_num →
        ∃ p o env', (effParams ops rp m)[i]? = some p ∧
          ops.reset (ops.seed env s) p = .ok (o, env') ∧ m'.envs[i]? = some env') ∧
      (∀ i env, seeds.length ≤ i → i < m.env_num → m.envs[i]? = some env →
        ∃ p o env', (effParams ops rp m)[i]? = some p ∧
          ops.reset env p = .ok (o, env') ∧ m'.envs[i]? = some env') := by
  have hlen : m.next_obs.length = m.envs.length := by
    rw [hwf.obs_len, hwf.envs_len]
  obtain ⟨m', hm'⟩ : ∃ m', reset ops rp m = (.ok (), m') := by
    rw [reset_eq]
    apply runResets_ok_exists ops hres
    intro i hi
    rw [List.mem_range] at hi
    constructor
    · show i < (seedAdjEnvs ops m).length
      rw [seedAdjEnvs_length, hwf.envs_len]
      exact hi
    · show i < (effParams ops rp m).length
      rw [effParams_length ops rp m hrp]
      exact hi
  obtain ⟨r1, r2, r3, r4, r5, r6, r7, r8, r9, r10, r11, r12⟩ :=
    reset_ok ops rp m m' hm' hlen
  refine ⟨m', hm', ?_, ?_⟩
  · intro i s env hs henv hi
    obtain ⟨env₀, p, o, env', h1, h2, h3, h4, h5⟩ := r1 i hi
    have hseedadj : (seedAdjEnvs ops m)[i]? = some (ops.seed env s) := by
      unfold seedAdjEnvs
      rw [hseed, applySeeds_getElem_lt ops m.envs seeds i s hs, henv]
      rfl
    rw [hseedadj] at h1
    have henv₀ : ops.seed env s = env₀ := (Option.some.injEq _ _).mp h1
    subst henv₀
    exact ⟨p, o, env', h2, h3, h4⟩
  · intro i env hge hi henv
    obtain ⟨env₀, p, o, env', h1, h2, h3, h4, h5⟩ := r1 i hi
    have hseedadj : (seedAdjEnvs ops m)[i]? = some env := by
      unfold seedAdjEnvs
      rw [hseed, applySeeds_getElem_ge ops m.envs seeds i hge]
      exact henv
    rw [hseedadj] at h1
    have henv₀ : env = env₀ := (Option.some.injEq _ _).mp h1
    subst henv₀
    exact ⟨p, o, env', h2, h3, h4⟩

/-- **C10** witness: `seed([5])` on the 2-slot pool seeds only slot 0; the
following reset succeeds with no length-mismatch error and slot 1 is reset
unseeded. -/
theorem C10_witness :
    (reset testOps none (seedPool [5] mPool)).1 = .ok () ∧
    ((reset testOps none (seedPool [5] mPool)).2).envs.map TestEnv.seedLog
      = [[5], []] := by
  have h := C10_short_seed_list testOps (seedPool [5] mPool) [5] none
    ⟨by decide, by decide, by decide, by decide⟩ rfl
    (fun e p => ⟨100 + e.resetCount, { e with resetCount := e.resetCount + 1 }, rfl⟩)
    (fun l hl => by cases hl)
  obtain ⟨m', hm', -, -⟩ := h
  refine ⟨by rw [hm'], by decide⟩

/-- **C1**: finite budget `B ≥ 1`, open pool, `step` calls targeting only
non-pool-done slots (distinct indices per call): a done-reporting step
increments the targeted slot's episode count by exactly 1 and a non-done
step leaves it unchanged; untargeted slots and the other operations
(`reset`, `close`, `seed`) never change a count; a slot is pool-done
exactly when its count equals `B` — after the `B`-th done-reporting step,
never earlier or later — and this correspondence persists through every
further valid sequence of step calls; until the budget is hit, a
done-reporting step triggers a single-slot auto-reset whose observation
replaces the slot's last observation. -/
theorem C1_episode_accounting (ops : EnvOps Cfg Obs Act EnvS RP E V) (B : Nat)
    (m m' : Manager Cfg Obs EnvS RP) (acts : List (Nat × Act))
    (ts : List (Nat × Timestep Obs))
    (hB : m.episode_num = some B) (hB1 : 1 ≤ B) (hwf : WF m) (hinv : CountInv B m)
    (hnd : (acts.map Prod.fst).Nodup)
    (htgt : ∀ p ∈ acts, slotDone m p.1 = false)
    (h : step ops acts m = (.ok ts, m')) :
    (∀ i a t, (i, a) ∈ acts → (i, t) ∈ ts →
      slotCount m' i = slotCount m i + (if t.done then 1 else 0)) ∧
    (∀ j, j ∉ acts.map Prod.fst → slotCount m' j = slotCount m j) ∧
    (∀ rp, ((reset ops rp m).2).env_episode_count = m.env_episode_count) ∧
    ((closePool ops m).env_episode_count = m.env_episode_count) ∧
    (∀ s, (seedPool s m).env_episode_count = m.env_episode_count) ∧
    (∀ i a t, (i, a) ∈ acts → (i, t) ∈ ts →
      (slotDone m' i = true ↔ slotCount m' i = B)) ∧
    (∀ i a t, (i, a) ∈ acts → (i, t) ∈ ts → t.done = true → slotCount m' i ≠ B →
      slotDone m' i = false ∧
      ∃ env env₁ p o env₂, m.envs[i]? = some env ∧
        ops.step env a = .ok (t, env₁) ∧
        (m.reset_param.getD [])[i]? = some p ∧ ops.reset env₁ p = .ok (o, env₂) ∧
        slotObs m' i = some o) ∧
    (CountInv B m' ∧
      ∀ calls, ValidCalls ops calls m' →
        ∀ i, i < (runSteps ops calls m').2.env_num →
          (slotDone (runSteps ops calls m').2 i = true ↔
           slotCount (runSteps ops calls m').2 i = B)) := by
  have hcl : m.closed = false := by
    cases hcl : m.closed with
    | true => rw [step_closed_check ops acts m hcl] at h; simp at h
    | false => rfl
  have hsl : stepLoop ops acts m = (.ok ts, m') := by
    rw [← step_open_eq ops acts m hcl]; exact h
  obtain ⟨hwf', hlf', hkeys', huntouched', hspec'⟩ :=
    stepLoop_ok_spec ops acts m ts m' hsl hnd hwf
  obtain ⟨hinv', hwf'2, hlf'2⟩ :=
    step_preserves_CountInv ops B acts m ts m' hB hwf hnd htgt hinv h
  refine ⟨?_, ?_, ?_, ?_, ?_, ?_, ?_, hinv', ?_⟩
  · intro i a t hma hmt
    obtain ⟨hspec, hi⟩ := hspec' i a t hma hmt
    obtain ⟨env, env₁, -, -, hdone, hnotdone⟩ := hspec
    cases ht : t.done with
    | true =>
      rw [if_pos rfl]
      exact (hdone ht).1
    | false =>
      rw [if_neg (by simp)]
      exact (hnotdone ht).1
  · intro j hj
    exact (huntouched' j hj).2.1
  · intro rp
    exact (reset_counts ops rp m).1
  · exact (closePool_frame ops m).2.1
  · intro s
    rfl
  · intro i a t hma hmt
    obtain ⟨-, hi⟩ := hspec' i a t hma hmt
    exact (hinv' i (hlf'.1 ▸ hi)).2
  · intro i a t hma hmt ht hne
    obtain ⟨hspec, hi⟩ := hspec' i a t hma hmt
    obtain ⟨env, env₁, henv, hst, hdone, -⟩ := hspec
    obtain ⟨hc, hbpos, hbneg⟩ := hdone ht
    have hbne : m.episode_num ≠ some (slotCount m i + 1) := by
      rw [hB]
      intro hq
      apply hne
      rw [hc]
      exact ((Option.some.injEq _ _).mp hq).symm
    obtain ⟨hd, p, o, env₂, hp, hres, -, ho⟩ := hbneg hbne
    refine ⟨hd.trans (htgt (i, a) hma), env, env₁, p, o, env₂, henv, hst, hp, hres, ho⟩
  · intro calls hvalid i hi
    have htr := runSteps_CountInv ops B calls m' (hlf'2.2.1.trans hB) hwf'2 hinv' hvalid
    exact (htr i hi).2

/-- **C1** witness: on the launched 2-slot budget-2 pool, one done-reporting
step on slot 0 raises its count from 0 to 1, leaves it non-pool-done
(1 ≠ B = 2), and auto-resets it (observation 101 replaces the launch
observation 100). -/
theorem C1_witness :
    slotCount (step testOps [(0, true)] mPool).2 0 = slotCount mPool 0 + 1 ∧
    slotDone (step testOps [(0, true)] mPool).2 0 = false ∧
    slotObs (step testOps [(0, true)] mPool).2 0 = some 101 := by
  have h := C1_episode_accounting testOps 2 mPool (step testOps [(0, true)] mPool).2
      [(0, true)] [(0, { obs := 0, reward := 0, done := true, info := "" })]
      rfl (by decide)
      ⟨by decide, by decide, by decide, by decide⟩
      (by decide : ∀ i, i < mPool.env_num →
        slotCount mPool i ≤ 2 ∧ (slotDone mPool i = true ↔ slotCount mPool i = 2))
      (by decide) (by decide) (by decide)
  refine ⟨?_, ?_, by decide⟩
  · have h1 := h.1 0 true { obs := 0, reward := 0, done := true, info := "" }
      (by decide) (by decide)
    simpa using h1
  · have h7 := h.2.2.2.2.2.2.1 0 true
      { obs := 0, reward := 0, done := true, info := "" }
      (by decide) (by decide) rfl (by decide)
    exact h7.1

end BaseEnvManager
